import Mathlib

/-!
Verification development for the mcp-web-ui chat core: a shallow embedding of
the canonical content model (internal/models), the tool-use orchestration loop
(internal/handlers/chat.go: Main.chat, Main.continueChat, Main.callTool) and the
four provider adapters (internal/services), together with proofs of the
specification's testable properties.

Conventions of the embedding:
* Go strings and json.RawMessage values are Lean `String`s.
* Go `error` results become `Except String` / `Option`.
* Calls that leave the repository (the MCP client, the Go standard library's
  base64 and JSON codecs, the network) are oracles passed in as function
  parameters; everything else is translated from the source.
-/

namespace MCPWebUI

/-- Model of mcp.ResourceContents (external go-mcp type): the fields the
repository reads (URI, MimeType, Text, Blob). -/
structure ResourceContents where
  uri : String := ""
  mimeType : String := ""
  text : String := ""
  blob : String := ""
deriving DecidableEq

/-- Model of models.ContentType (internal/models): the four content tags. -/
inductive ContentType
  | text
  | resource
  | callTool
  | toolResult
deriving DecidableEq

/-- Model of models.Content (internal/models): a tagged content unit.  Raw
JSON payloads (ToolInput, ToolResult) are strings; unset fields keep the Go
zero values, which are the defaults here. -/
structure Content where
  type : ContentType
  text : String := ""
  resourceContents : List ResourceContents := []
  toolName : String := ""
  toolInput : String := ""
  toolResult : String := ""
  callToolID : String := ""
  callToolFailed : Bool := false
deriving DecidableEq

/-- Model of models.Role. -/
inductive Role
  | user
  | assistant
deriving DecidableEq

/-- Model of models.Message; the timestamp plays no role in any claim and is
omitted. -/
structure Message where
  id : String := ""
  role : Role
  contents : List Content := []
deriving DecidableEq

/-- Model of mcp.Content (external go-mcp type) restricted to the text form
used by callToolError: a Type tag and a Text payload. -/
structure McpContent where
  type : String
  text : String
deriving DecidableEq

/-- Hexadecimal digit characters, used by the JSON string encoder model. -/
def hexDigit (n : Nat) : Char :=
  if n < 10 then Char.ofNat (48 + n) else Char.ofNat (87 + (n - 10))

/-- Model of how Go's encoding/json encodes one character inside a JSON
string literal (the default, HTML-escaping encoder). -/
def jsonEscapeChar (c : Char) : String :=
  if c = '"' then "\\\""
  else if c = '\\' then "\\\\"
  else if c = '\n' then "\\n"
  else if c = '\r' then "\\r"
  else if c = '\t' then "\\t"
  else if c = '<' then "\\u003c"
  else if c = '>' then "\\u003e"
  else if c = '&' then "\\u0026"
  else if c.toNat < 32 then
    String.mk ['\\', 'u', '0', '0', hexDigit (c.toNat / 16), hexDigit (c.toNat % 16)]
  else if c = Char.ofNat 8232 then "\\u2028"
  else if c = Char.ofNat 8233 then "\\u2029"
  else String.mk [c]

/-- Model of Go's encoding/json escaping of a whole string. -/
def jsonEscape (s : String) : String :=
  String.join (s.data.map jsonEscapeChar)

/-- Model of json.Marshal applied to a []mcp.Content value holding text
contents (Go standard library behaviour on this concrete struct shape): a JSON
array of objects with "type" and "text" fields. -/
def marshalMcpContents (cs : List McpContent) : String :=
  "[" ++ String.intercalate ","
    (cs.map (fun c =>
      "\x7b\"type\":\"" ++ jsonEscape c.type ++ "\",\"text\":\"" ++
        jsonEscape c.text ++ "\"\x7d")) ++ "]"

/-- Model of callToolError (internal/handlers/chat.go): wraps an error message
as the JSON marshalling of a single text mcp.Content. -/
def callToolError (e : String) : String :=
  marshalMcpContents [⟨"text", e⟩]

/-- Model of mcp.CallToolParams: a tool name and its raw JSON arguments. -/
structure CallToolParams where
  name : String
  arguments : String
deriving DecidableEq

/-- Model of mcp.CallToolResult: the content list and the IsError flag. -/
structure McpToolResult where
  content : List McpContent
  isError : Bool
deriving DecidableEq

/-- Model of Main.callTool (internal/handlers/chat.go).  `toolsMap` models the
name-to-client routing table m.toolsMap; `mcpCallTool` models the external
m.mcpClients[idx].CallTool invocation; `marshalContent` models json.Marshal on
the result's content list.  Returns the raw result payload and the success
flag, exactly as the Go function does. -/
def mainCallTool (toolsMap : String → Option Nat)
    (mcpCallTool : Nat → CallToolParams → Except String McpToolResult)
    (marshalContent : List McpContent → Except String String)
    (params : CallToolParams) : String × Bool :=
  match toolsMap params.name with
  | none => (callToolError ("tool " ++ params.name ++ " is not found"), false)
  | some clientIdx =>
    match mcpCallTool clientIdx params with
    | .error e => (callToolError ("tool call failed: " ++ e), false)
    | .ok toolRes =>
      match marshalContent toolRes.content with
      | .error e => (callToolError ("failed to marshal content: " ++ e), false)
      | .ok resContent => (resContent, !toolRes.isError)

/-- One item pulled from a provider adapter's iter.Seq2[models.Content, error]
stream: either a content delta or a non-nil error. -/
inductive StreamItem
  | delta (c : Content)
  | fail (e : String)
deriving DecidableEq

/-- Observable state of one Main.chat run: the in-memory aiMsg.Contents, the
ordered trace of store.UpdateMessage snapshots (each a full copy of
aiMsg.Contents at the moment of the write), and the ordered list of
Main.callTool invocations made by the loop. -/
structure ChatState where
  contents : List Content
  persisted : List (List Content)
  gwCalls : List CallToolParams
deriving DecidableEq

/-- Result of consuming one streaming pass (the inner for-range loop of
Main.chat): the updated state, the Go loop's contentIdx, and the callTool /
badToolInputFlag / badToolInput / aborted flags. `aborted` records that the
function returned early (stream error or illegal content type). -/
structure PassResult where
  st : ChatState
  contentIdx : Nat
  callTool : Bool
  badToolInputFlag : Bool
  badToolInput : String
  aborted : Bool
deriving DecidableEq

/-- In-place update of the element at index `i`, modelling a Go slice element
assignment. -/
def listModify (l : List α) (i : Nat) (f : α → α) : List α :=
  match l, i with
  | [], _ => []
  | a :: rest, 0 => f a :: rest
  | a :: rest, i + 1 => a :: listModify rest i f

/-- Model of the inner for-range loop of Main.chat (chat.go lines 628-694):
process stream items until the stream ends, an error or illegal content aborts
the turn, or a tool-call delta breaks out.  `valid` models whether
json.Marshal succeeds on a raw ToolInput payload.  Text deltas accumulate into
the content at contentIdx; every processed delta is followed by a persistence
write (recorded as a snapshot). -/
def runItems (valid : String → Bool) :
    List StreamItem → ChatState → Nat → Bool → Bool → String → PassResult
  | [], st, idx, ct, bf, bi => ⟨st, idx, ct, bf, bi, false⟩
  | .fail _ :: _, st, idx, ct, bf, bi => ⟨st, idx, ct, bf, bi, true⟩
  | .delta c :: rest, st, idx, ct, bf, bi =>
    match c.type with
    | .text =>
      let contents := listModify st.contents idx
        (fun old => { old with text := old.text ++ c.text })
      let st := { st with contents := contents, persisted := st.persisted ++ [contents] }
      runItems valid rest st idx ct bf bi
    | .callTool =>
      let bad := !(valid c.toolInput)
      let bf := bf || bad
      let bi := if bad then c.toolInput else bi
      let c := if bad then { c with toolInput := "\x7b\x7d" } else c
      let contents := st.contents ++ [c]
      let st := { st with contents := contents, persisted := st.persisted ++ [contents] }
      ⟨st, idx + 1, true, bf, bi, false⟩
    | .resource => ⟨st, idx, ct, bf, bi, true⟩
    | .toolResult => ⟨st, idx, ct, bf, bi, true⟩

/-- Model of the outer for loop of Main.chat (chat.go lines 617-726).  Each
element of `passes` is the item sequence one m.llm.Chat call yields; an empty
`passes` list models interruption before the next streaming pass.  Each pass
starts by appending a fresh empty text content; Go's contentIdx is maintained
by paired append/increment and therefore always equals the index of the last
element, so the pass starts it at the pre-append length.  After a tool-call
break: with badToolInputFlag the loop appends a synthetic failed tool-result
without calling the gateway, otherwise it invokes `gw` (Main.callTool) and
appends the returned result; both re-enter the loop with the extended
transcript. -/
def chatLoop (valid : String → Bool) (gw : CallToolParams → String × Bool) :
    List (List StreamItem) → ChatState → ChatState
  | [], st => st
  | items :: passes, st =>
    let contents := st.contents ++ [{ type := ContentType.text }]
    let contentIdx := st.contents.length
    let r := runItems valid items { st with contents := contents } contentIdx false false "\x7b\x7d"
    if r.aborted then r.st
    else if !r.callTool then r.st
    else
      let callToolContent := r.st.contents.getLastD { type := ContentType.text }
      let base : Content :=
        { type := ContentType.toolResult, callToolID := callToolContent.callToolID }
      if r.badToolInputFlag then
        let toolResContent := { base with
          toolResult := callToolError ("tool input " ++ r.badToolInput ++ " is not valid json"),
          callToolFailed := true }
        chatLoop valid gw passes { r.st with contents := r.st.contents ++ [toolResContent] }
      else
        let params : CallToolParams := ⟨callToolContent.toolName, callToolContent.toolInput⟩
        let res := gw params
        let toolResContent := { base with toolResult := res.1, callToolFailed := !res.2 }
        chatLoop valid gw passes
          { r.st with contents := r.st.contents ++ [toolResContent],
                      gwCalls := r.st.gwCalls ++ [params] }

/-- Model of Main.chat as invoked from HandleChats: the assistant message it
streams into was just created empty, so the run starts from empty contents, an
empty persistence trace and no gateway calls. -/
def mainChat (valid : String → Bool) (gw : CallToolParams → String × Bool)
    (passes : List (List StreamItem)) : ChatState :=
  chatLoop valid gw passes ⟨[], [], []⟩

/-- Result of one Main.continueChat run: the resulting stored message list,
the gateway invocations made, and whether a persistence write happened. -/
structure ContinueResult where
  messages : List Message
  gwCalls : List CallToolParams
  wrote : Bool
deriving DecidableEq

/-- Model of Main.continueChat (chat.go lines 531-574).  Reads the stored
message list; if it is empty, or the last message is not assistant-authored,
or has no contents, or its last content is not a tool-call, it is a no-op.
Otherwise it invokes the gateway with the pending call, appends the tool-result
to the same message and writes it back (UpdateMessage replaces the message in
place, i.e. the last list entry). -/
def continueChat (gw : CallToolParams → String × Bool) (messages : List Message) :
    ContinueResult :=
  if messages.length = 0 then ⟨messages, [], false⟩
  else
    let lastMessage := messages.getLastD { role := Role.user }
    if lastMessage.role ≠ Role.assistant then ⟨messages, [], false⟩
    else if lastMessage.contents.length = 0 then ⟨messages, [], false⟩
    else
      let lastContent := lastMessage.contents.getLastD { type := ContentType.text }
      if lastContent.type ≠ ContentType.callTool then ⟨messages, [], false⟩
      else
        let params : CallToolParams := ⟨lastContent.toolName, lastContent.toolInput⟩
        let res := gw params
        let newContent : Content :=
          { type := ContentType.toolResult, callToolID := lastContent.callToolID,
            toolResult := res.1, callToolFailed := !res.2 }
        ⟨messages.dropLast ++ [{ lastMessage with contents := lastMessage.contents ++ [newContent] }],
         [params], true⟩

/-- Go string rendering of a Role, modelling string(msg.Role). -/
def roleString : Role → String
  | .user => "user"
  | .assistant => "assistant"

/-- Go string rendering of a ContentType, modelling the models package
constants used in error messages. -/
def contentTypeString : ContentType → String
  | .text => "text"
  | .resource => "resource"
  | .callTool => "call_tool"
  | .toolResult => "tool_result"

/-- Oracles for the Go standard library calls the adapters make: base64
validity/encoding/decoding (services/helper.go isBase64 plus
encoding/base64) and json.Unmarshal into map[string]string shape. -/
structure GoStd where
  isBase64 : String → Bool
  base64Encode : String → String
  base64Decode : String → Except String String
  unmarshalStringMap : String → Except String (List (String × String))

/-- Output of one adapter Chat stream consumed to the end: the contents it
yields in order, and the error it yields last, if any. -/
structure StreamOut where
  yields : List Content
  errMsg : Option String
deriving DecidableEq

/-- Prepend some yielded contents onto a stream output. -/
def consOut (cs : List Content) (o : StreamOut) : StreamOut :=
  ⟨cs ++ o.yields, o.errMsg⟩

/-- Model of the content_block_start payload's content_block object
(anthropicContentBlockStart in services/anthropic.go). -/
structure AnthropicBlockStart where
  blockType : String
  id : String := ""
  name : String := ""
deriving DecidableEq

/-- Model of one parsed Anthropic SSE event, by event type.  `otherEvent`
covers event types the switch ignores via its default case. -/
inductive AnthropicEvent
  | errorEv (errType message : String)
  | messageStop
  | blockStart (b : AnthropicBlockStart)
  | blockDelta (text partialJSON : String)
  | blockStop
  | otherEvent
deriving DecidableEq

/-- Model of the event loop of Anthropic.Chat (services/anthropic.go lines
148-213): state is the isToolUse flag, the accumulated partial-JSON input and
the pending tool-call content. -/
def anthropicStream : List AnthropicEvent → Bool → String → Content → StreamOut
  | [], _, _, _ => ⟨[], none⟩
  | ev :: rest, isToolUse, inputJSON, toolContent =>
    match ev with
    | .errorEv t m => ⟨[], some ("anthropic error " ++ t ++ ": " ++ m)⟩
    | .messageStop => ⟨[], none⟩
    | .blockStart b =>
      if b.blockType ≠ "tool_use" then anthropicStream rest isToolUse inputJSON toolContent
      else anthropicStream rest true inputJSON
        { toolContent with toolName := b.name, callToolID := b.id }
    | .blockDelta text partialJSON =>
      if isToolUse then anthropicStream rest isToolUse (inputJSON ++ partialJSON) toolContent
      else consOut [{ type := ContentType.text, text := text }]
        (anthropicStream rest isToolUse inputJSON toolContent)
    | .blockStop =>
      if !isToolUse then anthropicStream rest isToolUse inputJSON toolContent
      else
        let filledInput := if inputJSON = "" then "\x7b\x7d" else inputJSON
        let tc := { toolContent with toolInput := filledInput }
        consOut [tc] (anthropicStream rest false "" tc)
    | .otherEvent => anthropicStream rest isToolUse inputJSON toolContent

/-- Model of Anthropic.Chat on a successfully opened stream: initial state has
isToolUse false, empty accumulated input, and a tool-call content with only
its type set. -/
def anthropicChat (events : List AnthropicEvent) : StreamOut :=
  anthropicStream events false "" { type := ContentType.callTool }

/-- Model of anthropicResourceContent (the base64 source object). -/
structure AnthropicResourceContent where
  srcType : String
  mediaType : String
  data : String
deriving DecidableEq

/-- Model of anthropicMessageContent: one outgoing content object. -/
structure AnthropicMessageContent where
  ctype : String
  text : String := ""
  source : Option AnthropicResourceContent := none
  id : String := ""
  name : String := ""
  input : String := ""
  toolUseID : String := ""
  content : String := ""
  isError : Bool := false
deriving DecidableEq

/-- Model of anthropicMessage: role plus content list. -/
structure AnthropicMessage where
  role : String
  content : List AnthropicMessageContent
deriving DecidableEq

/-- Model of Anthropic.processResourceContents: images and PDFs are inlined as
base64 sources, everything else becomes a bounded text rendering prefixed by
its media type. -/
def anthropicProcessResourceContents (std : GoStd) :
    List ResourceContents → List AnthropicMessageContent
  | [] => []
  | r :: rest =>
    let c : AnthropicMessageContent :=
      if "image/".isPrefixOf r.mimeType then
        let blobData := if std.isBase64 r.blob then r.blob else std.base64Encode r.blob
        { ctype := "image", source := some ⟨"base64", r.mimeType, blobData⟩ }
      else if r.mimeType = "application/pdf" then
        let blobData := if std.isBase64 r.blob then r.blob else std.base64Encode r.blob
        { ctype := "document", source := some ⟨"base64", r.mimeType, blobData⟩ }
      else
        let data := if r.text = "" then r.blob else r.text
        { ctype := "text", text := "[Document of type " ++ r.mimeType ++ "]\n" ++ data }
    c :: anthropicProcessResourceContents std rest

/-- Content loop of Anthropic.processUserMessage: text and resource contents
are converted, tool contents are rejected. -/
def anthropicUserContents (std : GoStd) :
    List Content → Except String (List AnthropicMessageContent)
  | [] => .ok []
  | ct :: rest =>
    match ct.type with
    | .text =>
      (anthropicUserContents std rest).map (fun cs =>
        (if ct.text ≠ "" then [{ ctype := "text", text := ct.text }] else []) ++ cs)
    | .resource =>
      (anthropicUserContents std rest).map
        (fun cs => anthropicProcessResourceContents std ct.resourceContents ++ cs)
    | .callTool =>
      .error ("content type " ++ contentTypeString ct.type ++ " is not supported for user messages")
    | .toolResult =>
      .error ("content type " ++ contentTypeString ct.type ++ " is not supported for user messages")

/-- Model of Anthropic.processUserMessage. -/
def anthropicProcessUserMessage (std : GoStd) (msg : Message) :
    Except String AnthropicMessage :=
  (anthropicUserContents std msg.contents).map (fun cs => ⟨roleString msg.role, cs⟩)

/-- Content loop of Anthropic.processOtherRoleMessage, carrying the emitted
message list and the pending content accumulator: a tool_use closes the
current assistant message, a tool_result becomes a separate user message, and
a resource content is an error. -/
def anthropicOtherContents :
    List Content → List AnthropicMessage → List AnthropicMessageContent → String →
    Except String (List AnthropicMessage)
  | [], msgs, contents, role =>
    .ok (if contents.length > 0 then msgs ++ [⟨role, contents⟩] else msgs)
  | ct :: rest, msgs, contents, role =>
    match ct.type with
    | .text =>
      anthropicOtherContents rest msgs
        (if ct.text ≠ "" then contents ++ [{ ctype := "text", text := ct.text }] else contents) role
    | .callTool =>
      anthropicOtherContents rest
        (msgs ++ [⟨role, contents ++
          [{ ctype := "tool_use", id := ct.callToolID, name := ct.toolName, input := ct.toolInput }]⟩])
        [] role
    | .toolResult =>
      anthropicOtherContents rest
        (msgs ++ [⟨"user",
          [{ ctype := "tool_result", toolUseID := ct.callToolID,
             isError := ct.callToolFailed, content := ct.toolResult }]⟩])
        contents role
    | .resource =>
      .error ("content type " ++ contentTypeString ct.type ++ " is not supported for assistant messages")

/-- Model of Anthropic.processOtherRoleMessage. -/
def anthropicProcessOtherRoleMessage (msg : Message) : Except String (List AnthropicMessage) :=
  anthropicOtherContents msg.contents [] [] (roleString msg.role)

/-- Model of Anthropic.convertMessages. -/
def anthropicConvertMessages (std : GoStd) : List Message → Except String (List AnthropicMessage)
  | [] => .ok []
  | msg :: rest =>
    if msg.role = Role.user then
      match anthropicProcessUserMessage std msg with
      | .error e => .error e
      | .ok userMsg => (anthropicConvertMessages std rest).map (fun ms => userMsg :: ms)
    else
      match anthropicProcessOtherRoleMessage msg with
      | .error e => .error e
      | .ok otherMsgs => (anthropicConvertMessages std rest).map (fun ms => otherMsgs ++ ms)

/-- Model of Go's unicode.IsSpace restricted to the Latin-1 white space
characters (space, tab, newline, vertical tab, form feed, carriage return,
next line, no-break space); the stop sequences under consideration contain
only these. -/
def goIsSpace (c : Char) : Bool :=
  c = ' ' || c = '\t' || c = '\n' || c = Char.ofNat 11 || c = Char.ofNat 12 ||
    c = '\r' || c = Char.ofNat 133 || c = Char.ofNat 160

/-- Model of strings.TrimSpace. -/
def goTrimSpace (s : String) : String :=
  String.mk (((s.data.dropWhile goIsSpace).reverse.dropWhile goIsSpace).reverse)

/-- Stop-sequence filtering of Anthropic.doRequest (services/anthropic.go
lines 275-286): trim each sequence, dropping those that trim to empty. -/
def anthropicValidStopSequences : Option (List String) → List String
  | none => []
  | some seqs => seqs.filterMap (fun seq =>
      let trimmed := goTrimSpace seq
      if trimmed = "" then none else some trimmed)

/-- Model of services.LLMParameters (its defining file is not under src; the
fields are reconstructed from every use site in the adapters).  Only the
fields the embedded code reads are carried. -/
structure LLMParameters where
  temperature : Option Float := none
  topK : Option Int := none
  topP : Option Float := none
  stop : Option (List String) := none

/-- Model of the Anthropic adapter's configuration fields. -/
structure AnthropicConfig where
  apiKey : String := ""
  model : String := ""
  maxTokens : Int := 0
  systemPrompt : String := ""
  params : LLMParameters := {}

/-- Model of mcp.Tool as the adapters read it. -/
structure McpTool where
  name : String := ""
  description : String := ""
  inputSchema : String := ""
deriving DecidableEq

/-- Model of anthropicTool. -/
structure AnthropicTool where
  name : String
  description : String
  inputSchema : String
deriving DecidableEq

/-- Model of anthropicChatRequest, the outgoing request body. -/
structure AnthropicChatRequest where
  model : String
  messages : List AnthropicMessage
  system : String
  maxTokens : Int
  tools : List AnthropicTool
  stream : Bool
  stopSequences : List String
  temperature : Option Float
  topK : Option Int
  topP : Option Float

/-- Model of the request-construction part of Anthropic.doRequest: convert the
transcript (failing fast on illegal content), map the tool catalog, filter the
stop sequences and assemble the body.  An error means no request is sent. -/
def anthropicBuildRequest (std : GoStd) (a : AnthropicConfig) (messages : List Message)
    (tools : List McpTool) (stream : Bool) : Except String AnthropicChatRequest :=
  match anthropicConvertMessages std messages with
  | .error e => .error e
  | .ok msgs =>
    .ok { model := a.model, messages := msgs, system := a.systemPrompt,
          maxTokens := a.maxTokens,
          tools := tools.map (fun t => ⟨t.name, t.description, t.inputSchema⟩),
          stream := stream,
          stopSequences := anthropicValidStopSequences a.params.stop,
          temperature := a.params.temperature, topK := a.params.topK, topP := a.params.topP }

/-- Model of one streamed tool-call fragment as the OpenAI adapter reads it:
res.ToolCalls[i].ID, .Function.Name and .Function.Arguments. -/
structure ToolCallFragment where
  id : String := ""
  name : String := ""
  arguments : String := ""
deriving DecidableEq

/-- Model of choices[0].delta in an OpenAI streaming chunk. -/
structure OpenAIDelta where
  content : String := ""
  toolCalls : List ToolCallFragment := []
deriving DecidableEq

/-- Model of one successfully received OpenAI streaming response. -/
structure OpenAIChunk where
  choices : List OpenAIDelta := []
deriving DecidableEq

/-- Model of the receive loop of OpenAI.Chat (services/openai.go lines
272-323): text deltas are yielded as they arrive; tool-call fragments
accumulate the argument string (always from the first fragment of each delta)
and latch the name and id from the first fragment seen; at end of stream an
accumulated tool call is yielded, with empty arguments normalized to an empty
JSON object. -/
def openAIStream : List OpenAIChunk → Bool → String → Content → StreamOut
  | [], toolUse, toolArgs, callToolContent =>
    if toolUse then
      let toolArgs := if toolArgs = "" then "\x7b\x7d" else toolArgs
      ⟨[{ callToolContent with toolInput := toolArgs }], none⟩
    else ⟨[], none⟩
  | chunk :: rest, toolUse, toolArgs, callToolContent =>
    match chunk.choices with
    | [] => openAIStream rest toolUse toolArgs callToolContent
    | res :: _ =>
      let textYields : List Content :=
        if res.content ≠ "" then [{ type := ContentType.text, text := res.content }] else []
      match res.toolCalls with
      | [] => consOut textYields (openAIStream rest toolUse toolArgs callToolContent)
      | tc :: _ =>
        let toolArgs := toolArgs ++ tc.arguments
        if toolUse then consOut textYields (openAIStream rest toolUse toolArgs callToolContent)
        else consOut textYields (openAIStream rest true toolArgs
          { callToolContent with toolName := tc.name, callToolID := tc.id })

/-- Model of OpenAI.Chat consuming a successfully opened stream to EOF. -/
def openAIChat (chunks : List OpenAIChunk) : StreamOut :=
  openAIStream chunks false "" { type := ContentType.callTool }

/-- Model of choices[0].delta in an OpenRouter streaming payload
(openRouterMessage): content plus tool-call fragments. -/
structure ORDelta where
  content : String := ""
  toolCalls : List ToolCallFragment := []
deriving DecidableEq

/-- Model of one parsed OpenRouter JSON-line payload.  The same payload is
probed both as an error envelope (errorCode, errorMessage) and as a normal
streaming response (choices), exactly as the Go code unmarshals it twice. -/
structure ORPayload where
  errorCode : Int := 0
  errorMessage : String := ""
  choices : List ORDelta := []
deriving DecidableEq

/-- Model of one OpenRouter stream event: the literal [DONE] sentinel or a
JSON payload. -/
inductive OREvent
  | done
  | payload (p : ORPayload)
deriving DecidableEq

/-- End-of-loop behaviour shared by the break paths of OpenRouter.Chat: yield
the accumulated tool call if one was signalled. -/
def openRouterEnd (toolUse : Bool) (toolArgs : String) (callToolContent : Content) : StreamOut :=
  if toolUse then
    let toolArgs := if toolArgs = "" then "\x7b\x7d" else toolArgs
    ⟨[{ callToolContent with toolInput := toolArgs }], none⟩
  else ⟨[], none⟩

/-- Model of the event loop of OpenRouter.Chat (services/openrouter.go lines
179-252): a [DONE] sentinel breaks out; a payload with a non-zero error code
is a terminal error; otherwise tool-call fragments are accumulated first (as
in the OpenAI adapter) and then a non-empty content is yielded as text. -/
def openRouterStream : List OREvent → Bool → String → Content → StreamOut
  | [], toolUse, toolArgs, callToolContent => openRouterEnd toolUse toolArgs callToolContent
  | .done :: _, toolUse, toolArgs, callToolContent => openRouterEnd toolUse toolArgs callToolContent
  | .payload p :: rest, toolUse, toolArgs, callToolContent =>
    if p.errorCode ≠ 0 then ⟨[], some ("openrouter error: " ++ p.errorMessage)⟩
    else
      match p.choices with
      | [] => openRouterStream rest toolUse toolArgs callToolContent
      | res :: _ =>
        let acc :=
          match res.toolCalls with
          | [] => (toolUse, toolArgs, callToolContent)
          | tc :: _ =>
            let toolArgs := toolArgs ++ tc.arguments
            if toolUse then (toolUse, toolArgs, callToolContent)
            else (true, toolArgs, { callToolContent with toolName := tc.name, callToolID := tc.id })
        let textYields : List Content :=
          if res.content ≠ "" then [{ type := ContentType.text, text := res.content }] else []
        consOut textYields (openRouterStream rest acc.1 acc.2.1 acc.2.2)

/-- Model of OpenRouter.Chat consuming a successfully opened stream. -/
def openRouterChat (events : List OREvent) : StreamOut :=
  openRouterStream events false "" { type := ContentType.callTool }

/-- Sorted insertion by key, used to model Go's map-key ordering in
json.Marshal. -/
def insertByKey (kv : String × String) : List (String × String) → List (String × String)
  | [] => [kv]
  | kv2 :: rest => if kv.1 ≤ kv2.1 then kv :: kv2 :: rest else kv2 :: insertByKey kv rest

/-- Insertion sort by key. -/
def sortByKey : List (String × String) → List (String × String)
  | [] => []
  | kv :: rest => insertByKey kv (sortByKey rest)

/-- Model of json.Marshal applied to a map[string]any holding string values
(the shape of an Ollama tool call's Arguments): a JSON object with the keys in
sorted order.  An empty map marshals to an empty JSON object literal. -/
def marshalStringObject (m : List (String × String)) : String :=
  "\x7b" ++ String.intercalate ","
    ((sortByKey m).map (fun kv =>
      "\"" ++ jsonEscape kv.1 ++ "\":\"" ++ jsonEscape kv.2 ++ "\"")) ++ "\x7d"

/-- Model of api.ToolCall as the Ollama adapter reads it: a function name and
an arguments map (modelled as an association list of string values). -/
structure OllamaToolCall where
  name : String := ""
  arguments : List (String × String) := []
deriving DecidableEq

/-- Model of one api.ChatResponse delivered to the Ollama streaming
callback. -/
structure OllamaChatResponse where
  content : String := ""
  toolCalls : List OllamaToolCall := []
deriving DecidableEq

/-- Model of the streaming callback of Ollama.Chat (services, Ollama section,
lines 756-785): each response yields its non-empty content as text, and its
first tool call (if any) as a tool-call content whose input is the marshalled
arguments map; the CallToolID field is never populated. -/
def ollamaStream : List OllamaChatResponse → List Content
  | [] => []
  | res :: rest =>
    (if res.content ≠ "" then [{ type := ContentType.text, text := res.content }] else []) ++
    (match res.toolCalls with
     | [] => []
     | tc :: _ => [{ type := ContentType.callTool, toolName := tc.name,
                     toolInput := marshalStringObject tc.arguments }]) ++
    ollamaStream rest

/-- Model of goopenai.ToolCall as the adapter constructs it. -/
structure OpenAIToolCall where
  ctype : String
  id : String
  name : String
  arguments : String
deriving DecidableEq

/-- Model of goopenai.ChatMessagePart (text or image_url). -/
structure OpenAIMessagePart where
  ptype : String
  text : String := ""
  imageURL : String := ""
deriving DecidableEq

/-- Model of goopenai.ChatCompletionMessage as the adapter constructs it. -/
structure OpenAIChatMessage where
  role : String
  content : String := ""
  multiContent : List OpenAIMessagePart := []
  toolCalls : List OpenAIToolCall := []
  toolCallID : String := ""
deriving DecidableEq

/-- Model of processImageForOpenAI: a data URL with a defaulted media type. -/
def processImageForOpenAI (std : GoStd) (r : ResourceContents) : String :=
  let mimeType := if r.mimeType = "" then "image/png" else r.mimeType
  let imageData := if std.isBase64 r.blob then r.blob else std.base64Encode r.blob
  "data:" ++ mimeType ++ ";base64," ++ imageData

/-- Model of convertResourceToTextForOpenAI. -/
def convertResourceToTextForOpenAI (std : GoStd) (r : ResourceContents) : String :=
  if r.text ≠ "" then "[Document of type " ++ r.mimeType ++ "]\n" ++ r.text
  else if r.blob ≠ "" then
    let data := if std.isBase64 r.blob then r.blob else std.base64Encode r.blob
    "[Document of type " ++ r.mimeType ++ "]\n" ++ data
  else ""

/-- Resource sub-loop of processUserMessageForOpenAI's MultiContent branch:
images become image parts, everything else is folded into the running text. -/
def openAIResourceParts (std : GoStd) :
    List ResourceContents → List OpenAIMessagePart → String →
    List OpenAIMessagePart × String
  | [], parts, textContent => (parts, textContent)
  | r :: rest, parts, textContent =>
    if "image/".isPrefixOf r.mimeType then
      openAIResourceParts std rest
        (parts ++ [{ ptype := "image_url", imageURL := processImageForOpenAI std r }]) textContent
    else
      let resourceText := convertResourceToTextForOpenAI std r
      let textContent :=
        if resourceText ≠ "" then
          (if textContent ≠ "" then textContent ++ "\n\n" else textContent) ++ resourceText
        else textContent
      openAIResourceParts std rest parts textContent

/-- Content loop of processUserMessageForOpenAI's MultiContent branch. -/
def openAIUserParts (std : GoStd) :
    List Content → List OpenAIMessagePart → String →
    Except String (List OpenAIMessagePart × String)
  | [], parts, textContent => .ok (parts, textContent)
  | ct :: rest, parts, textContent =>
    match ct.type with
    | .text =>
      let textContent :=
        if ct.text ≠ "" then
          (if textContent ≠ "" then textContent ++ "\n\n" else textContent) ++ ct.text
        else textContent
      openAIUserParts std rest parts textContent
    | .resource =>
      let pt := openAIResourceParts std ct.resourceContents parts textContent
      openAIUserParts std rest pt.1 pt.2
    | .callTool =>
      .error ("content type " ++ contentTypeString ct.type ++ " is not supported for user messages")
    | .toolResult =>
      .error ("content type " ++ contentTypeString ct.type ++ " is not supported for user messages")

/-- Model of processUserMessageForOpenAI: without resources all non-empty
texts are joined; with resources a MultiContent message is assembled with any
accumulated text as the final part. -/
def processUserMessageForOpenAI (std : GoStd) (msg : Message) :
    Except String OpenAIChatMessage :=
  let hasResources := msg.contents.any (fun ct => ct.type == ContentType.resource)
  if !hasResources then
    let textParts := msg.contents.filterMap (fun ct =>
      if ct.type = ContentType.text ∧ ct.text ≠ "" then some ct.text else none)
    .ok { role := roleString msg.role, content := String.intercalate "\n\n" textParts }
  else
    match openAIUserParts std msg.contents [] "" with
    | .error e => .error e
    | .ok pt =>
      let parts := if pt.2 ≠ "" then pt.1 ++ [{ ptype := "text", text := pt.2 }] else pt.1
      .ok { role := roleString msg.role, multiContent := parts }

/-- Assistant/other-role content loop of openAIMessages. -/
def openAIAssistantContents (role : String) :
    List Content → Except String (List OpenAIChatMessage)
  | [] => .ok []
  | ct :: rest =>
    match ct.type with
    | .text =>
      (openAIAssistantContents role rest).map (fun ms =>
        (if ct.text ≠ "" then [{ role := role, content := ct.text }] else []) ++ ms)
    | .callTool =>
      (openAIAssistantContents role rest).map (fun ms =>
        { role := role,
          toolCalls := [{ ctype := "function", id := ct.callToolID,
                          name := ct.toolName, arguments := ct.toolInput }] } :: ms)
    | .toolResult =>
      (openAIAssistantContents role rest).map (fun ms =>
        { role := "tool", content := ct.toolResult, toolCallID := ct.callToolID } :: ms)
    | .resource =>
      .error ("content type " ++ contentTypeString ct.type ++ " is not supported for assistant messages")

/-- Model of openAIMessages (services/openai.go lines 56-105). -/
def openAIMessages (std : GoStd) : List Message → Except String (List OpenAIChatMessage)
  | [] => .ok []
  | msg :: rest =>
    if msg.role = Role.user then
      match processUserMessageForOpenAI std msg with
      | .error e => .error e
      | .ok m => (openAIMessages std rest).map (fun ms => m :: ms)
    else
      match openAIAssistantContents (roleString msg.role) msg.contents with
      | .error e => .error e
      | .ok ms1 => (openAIMessages std rest).map (fun ms => ms1 ++ ms)

/-- Model of openRouterUserContent. -/
structure ORUserContent where
  ptype : String
  text : String := ""
  imageURL : String := ""
deriving DecidableEq

/-- Model of the untyped Content field of openRouterMessageRequest, which
holds nothing, a plain string, or a user-content array. -/
inductive ORContent
  | empty
  | str (s : String)
  | parts (ps : List ORUserContent)
deriving DecidableEq

/-- Model of openRouterToolCalls. -/
structure ORToolCall where
  id : String
  ctype : String
  name : String
  arguments : String
deriving DecidableEq

/-- Model of openRouterMessageRequest. -/
structure ORMessageRequest where
  role : String
  content : ORContent := ORContent.empty
  toolCalls : List ORToolCall := []
  toolCallID : String := ""
deriving DecidableEq

/-- Model of processImageForOpenRouter. -/
def processImageForOpenRouter (std : GoStd) (r : ResourceContents) : String :=
  let mimeType := if r.mimeType = "" then "image/png" else r.mimeType
  let imageData := if std.isBase64 r.blob then r.blob else std.base64Encode r.blob
  "data:" ++ mimeType ++ ";base64," ++ imageData

/-- Model of convertResourceToTextForOpenRouter. -/
def convertResourceToTextForOpenRouter (std : GoStd) (r : ResourceContents) : String :=
  if r.text ≠ "" then "[Document of type " ++ r.mimeType ++ "]\n" ++ r.text
  else if r.blob ≠ "" then
    let data := if std.isBase64 r.blob then r.blob else std.base64Encode r.blob
    "[Document of type " ++ r.mimeType ++ "]\n" ++ data
  else ""

/-- Resource sub-loop of processUserMessageForOpenRouter. -/
def orResourceContents (std : GoStd) : List ResourceContents → List ORUserContent
  | [] => []
  | r :: rest =>
    (if "image/".isPrefixOf r.mimeType then
      { ptype := "image_url", imageURL := processImageForOpenRouter std r }
     else
      ({ ptype := "text", text := convertResourceToTextForOpenRouter std r } : ORUserContent)) ::
    orResourceContents std rest

/-- Content loop of processUserMessageForOpenRouter. -/
def orUserContents (std : GoStd) : List Content → Except String (List ORUserContent)
  | [] => .ok []
  | ct :: rest =>
    match ct.type with
    | .text =>
      (orUserContents std rest).map (fun cs =>
        (if ct.text ≠ "" then [{ ptype := "text", text := ct.text }] else []) ++ cs)
    | .resource =>
      (orUserContents std rest).map (fun cs => orResourceContents std ct.resourceContents ++ cs)
    | .callTool =>
      .error ("content type " ++ contentTypeString ct.type ++ " is not supported for user messages")
    | .toolResult =>
      .error ("content type " ++ contentTypeString ct.type ++ " is not supported for user messages")

/-- Model of OpenRouter.processUserMessageForOpenRouter. -/
def processUserMessageForOpenRouter (std : GoStd) (msg : Message) :
    Except String ORMessageRequest :=
  (orUserContents std msg.contents).map (fun cs =>
    { role := roleString msg.role, content := ORContent.parts cs })

/-- Assistant/tool content loop inside OpenRouter.doRequest. -/
def orAssistantContents (role : String) : List Content → Except String (List ORMessageRequest)
  | [] => .ok []
  | ct :: rest =>
    match ct.type with
    | .text =>
      (orAssistantContents role rest).map (fun ms =>
        (if ct.text ≠ "" then [{ role := role, content := ORContent.str ct.text }] else []) ++ ms)
    | .callTool =>
      (orAssistantContents role rest).map (fun ms =>
        { role := "assistant",
          toolCalls := [{ id := ct.callToolID, ctype := "function",
                          name := ct.toolName, arguments := ct.toolInput }] } :: ms)
    | .toolResult =>
      (orAssistantContents role rest).map (fun ms =>
        { role := "tool", toolCallID := ct.callToolID,
          content := ORContent.str ct.toolResult } :: ms)
    | .resource =>
      .error ("content type " ++ contentTypeString ct.type ++ " is not supported for assistant messages")

/-- Message-assembly part of OpenRouter.doRequest (services/openrouter.go
lines 301-348); an error here means no request is sent. -/
def orMessages (std : GoStd) : List Message → Except String (List ORMessageRequest)
  | [] => .ok []
  | msg :: rest =>
    if msg.role = Role.user then
      match processUserMessageForOpenRouter std msg with
      | .error e => .error e
      | .ok m => (orMessages std rest).map (fun ms => m :: ms)
    else
      match orAssistantContents (roleString msg.role) msg.contents with
      | .error e => .error e
      | .ok ms1 => (orMessages std rest).map (fun ms => ms1 ++ ms)

/-- Model of api.Message of the Ollama client as constructed here. -/
structure OllamaAPIMessage where
  role : String
  content : String := ""
  images : List String := []
  toolCalls : List OllamaToolCall := []
deriving DecidableEq

/-- Model of processImageForOllama: non-base64 blobs pass through as raw image
bytes, base64 blobs are decoded. -/
def processImageForOllama (std : GoStd) (r : ResourceContents) : Except String String :=
  if !(std.isBase64 r.blob) then .ok r.blob
  else
    match std.base64Decode r.blob with
    | .error e => .error ("error decoding base64 image: " ++ e)
    | .ok d => .ok d

/-- Model of convertResourceToText (Ollama section). -/
def convertResourceToText (std : GoStd) (r : ResourceContents) : String :=
  if r.text ≠ "" then "[Document of type " ++ r.mimeType ++ "]\n" ++ r.text
  else if r.blob ≠ "" then
    let data := if std.isBase64 r.blob then r.blob else std.base64Encode r.blob
    "[Document of type " ++ r.mimeType ++ "]\n" ++ data
  else ""

/-- Model of processResourceContentsForOllama. -/
def processResourceContentsForOllama (std : GoStd) :
    List ResourceContents → String → List String → Except String (String × List String)
  | [], textContent, images => .ok (textContent, images)
  | r :: rest, textContent, images =>
    if "image/".isPrefixOf r.mimeType then
      match processImageForOllama std r with
      | .error e => .error e
      | .ok img => processResourceContentsForOllama std rest textContent (images ++ [img])
    else
      let description := convertResourceToText std r
      let textContent :=
        if textContent ≠ "" ∧ description ≠ "" then textContent ++ "\n\n" ++ description
        else textContent ++ description
      processResourceContentsForOllama std rest textContent images

/-- User content loop of ollamaMessages, accumulating combined text and
extracted images. -/
def ollamaUserContents (std : GoStd) :
    List Content → String → List String → Except String (String × List String)
  | [], content, images => .ok (content, images)
  | ct :: rest, content, images =>
    match ct.type with
    | .text => ollamaUserContents std rest (content ++ ct.text) images
    | .resource =>
      match processResourceContentsForOllama std ct.resourceContents "" [] with
      | .error e => .error e
      | .ok ti => ollamaUserContents std rest (content ++ ti.1) (images ++ ti.2)
    | .callTool =>
      .error ("content type " ++ contentTypeString ct.type ++ " is not supported for user messages")
    | .toolResult =>
      .error ("content type " ++ contentTypeString ct.type ++ " is not supported for user messages")

/-- Assistant/tool content loop of ollamaMessages.  The unmarshalling of a
stored tool input back into an arguments map is the GoStd oracle. -/
def ollamaAssistantContents (std : GoStd) (role : String) :
    List Content → Except String (List OllamaAPIMessage)
  | [] => .ok []
  | ct :: rest =>
    match ct.type with
    | .text =>
      (ollamaAssistantContents std role rest).map (fun ms =>
        (if ct.text ≠ "" then [{ role := role, content := ct.text }] else []) ++ ms)
    | .callTool =>
      match std.unmarshalStringMap ct.toolInput with
      | .error e => .error ("error unmarshaling tool input: " ++ e)
      | .ok args =>
        (ollamaAssistantContents std role rest).map (fun ms =>
          { role := role, toolCalls := [{ name := ct.toolName, arguments := args }] } :: ms)
    | .toolResult =>
      (ollamaAssistantContents std role rest).map (fun ms =>
        { role := "tool", content := ct.toolResult } :: ms)
    | .resource =>
      .error ("content type " ++ contentTypeString ct.type ++ " is not supported for assistant messages")

/-- Model of ollamaMessages. -/
def ollamaMessages (std : GoStd) : List Message → Except String (List OllamaAPIMessage)
  | [] => .ok []
  | msg :: rest =>
    if msg.role = Role.user then
      match ollamaUserContents std msg.contents "" [] with
      | .error e => .error e
      | .ok ti =>
        (ollamaMessages std rest).map (fun ms =>
          { role := roleString msg.role, content := ti.1, images := ti.2 } :: ms)
    else
      match ollamaAssistantContents std (roleString msg.role) msg.contents with
      | .error e => .error e
      | .ok ms1 => (ollamaMessages std rest).map (fun ms => ms1 ++ ms)

/-! Helper lemmas about the list operations used by the embedding. -/

theorem listModify_concat (l : List α) (a : α) (f : α → α) :
    listModify (l ++ [a]) l.length f = l ++ [f a] := by
  induction l with
  | nil => rfl
  | cons x xs ih => simpa [listModify] using ih

theorem getLastD_concat_eq (l : List α) (a d : α) : (l ++ [a]).getLastD d = a := by
  simp

/-- A stored message list has a pending tool call when it is non-empty, its
last message is assistant-authored with contents, and that message's last
content is a tool-call; this is exactly the guard chain of continueChat. -/
def pendingToolCall (messages : List Message) : Prop :=
  messages.length ≠ 0 ∧
  (messages.getLastD { role := Role.user }).role = Role.assistant ∧
  (messages.getLastD { role := Role.user }).contents.length ≠ 0 ∧
  ((messages.getLastD { role := Role.user }).contents.getLastD
    { type := ContentType.text }).type = ContentType.callTool

theorem continueChat_noop (gw : CallToolParams → String × Bool) (messages : List Message)
    (h : ¬ pendingToolCall messages) :
    continueChat gw messages = ⟨messages, [], false⟩ := by
  unfold continueChat
  simp only []
  split_ifs with h0 h1 h2 h3
  · rfl
  · rfl
  · rfl
  · rfl
  · exact absurd ⟨h0, not_not.mp h1, h2, not_not.mp h3⟩ h

theorem continueChat_not_pending (gw : CallToolParams → String × Bool)
    (messages : List Message) :
    ¬ pendingToolCall (continueChat gw messages).messages := by
  unfold continueChat
  simp only []
  split_ifs with h0 h1 h2 h3
  · exact fun hc => hc.1 h0
  · exact fun hc => h1 hc.2.1
  · exact fun hc => hc.2.2.1 h2
  · exact fun hc => h3 hc.2.2.2
  · intro hc
    have := hc.2.2.2
    simp only [ContinueResult.messages, getLastD_concat_eq] at this
    cases this

/-- C3: running Crash-Recovery Continuation (continueChat) twice in a row is
idempotent: the second run makes no gateway invocation and no persistence
write, and leaves the message list from the first run unchanged, because after
the first run the last content of the last message is never an unresolved
tool-call. -/
theorem continueChat_idempotent (gw : CallToolParams → String × Bool)
    (messages : List Message) :
    continueChat gw (continueChat gw messages).messages =
      ⟨(continueChat gw messages).messages, [], false⟩ :=
  continueChat_noop gw _ (continueChat_not_pending gw messages)

/-- Identity-flavoured standard-library oracle used by concrete witnesses. -/
def gostdId : GoStd := ⟨fun _ => true, fun s => s, fun s => .ok s, fun _ => .ok []⟩

/-- Concrete Anthropic configuration carrying the stop sequences of the C4
scenario. -/
def anthropicCfgStops : AnthropicConfig :=
  { params := { stop := some ["  ", "\n", " ok "] } }

/-- Counterexample to C4 as stated: with stop-sequence parameters
["  ", "\n", " ok "], the assembled request's stop-sequence list is not
["\n", "ok"] — strings.TrimSpace also erases "\n", which is pure whitespace,
so it is dropped and the list is exactly ["ok"]. -/
theorem anthropic_stop_sequences_counterexample :
    ∃ req, anthropicBuildRequest gostdId anthropicCfgStops [] [] true = .ok req ∧
      req.stopSequences ≠ ["\n", "ok"] ∧ req.stopSequences = ["ok"] :=
  ⟨_, rfl, by decide, by decide⟩

/-- C4 (amended): with stop-sequence parameters ["  ", "\n", " ok "], the
Anthropic adapter's outgoing request carries the stop-sequence list exactly
["ok"]: values empty after trimming surrounding whitespace (here both "  " and
"\n") are dropped, and retained values have surrounding whitespace trimmed. -/
theorem anthropic_stop_sequences_trimmed (std : GoStd) (a : AnthropicConfig)
    (messages : List Message) (tools : List McpTool) (stream : Bool)
    (req : AnthropicChatRequest)
    (hstop : a.params.stop = some ["  ", "\n", " ok "])
    (hreq : anthropicBuildRequest std a messages tools stream = .ok req) :
    req.stopSequences = ["ok"] := by
  unfold anthropicBuildRequest at hreq
  cases hconv : anthropicConvertMessages std messages with
  | error e => rw [hconv] at hreq; cases hreq
  | ok msgs =>
    rw [hconv] at hreq
    cases hreq
    simp only [hstop]
    decide

/-- Witness for the amended C4 at a concrete configuration and an empty
transcript. -/
theorem anthropic_stop_sequences_trimmed_witness :
    ∃ req, anthropicBuildRequest gostdId anthropicCfgStops [] [] true = .ok req ∧
      req.stopSequences = ["ok"] :=
  ⟨_, rfl, anthropic_stop_sequences_trimmed gostdId anthropicCfgStops [] [] true _ rfl rfl⟩

/-- C5: Main.callTool is total and never propagates a failure: an unknown tool
name, a failed provider invocation and a failed result serialization each
produce a success flag of false together with the callToolError payload (the
JSON marshalling of a single text content holding the error message), and the
success path returns the marshalled provider content with the provider's error
flag inverted. -/
theorem mainCallTool_error_payloads (toolsMap : String → Option Nat)
    (mcpCallTool : Nat → CallToolParams → Except String McpToolResult)
    (marshalContent : List McpContent → Except String String)
    (params : CallToolParams) :
    (toolsMap params.name = none →
      mainCallTool toolsMap mcpCallTool marshalContent params =
        (callToolError ("tool " ++ params.name ++ " is not found"), false)) ∧
    (∀ idx e, toolsMap params.name = some idx → mcpCallTool idx params = .error e →
      mainCallTool toolsMap mcpCallTool marshalContent params =
        (callToolError ("tool call failed: " ++ e), false)) ∧
    (∀ idx res e, toolsMap params.name = some idx → mcpCallTool idx params = .ok res →
      marshalContent res.content = .error e →
      mainCallTool toolsMap mcpCallTool marshalContent params =
        (callToolError ("failed to marshal content: " ++ e), false)) ∧
    (∀ idx res s, toolsMap params.name = some idx → mcpCallTool idx params = .ok res →
      marshalContent res.content = .ok s →
      mainCallTool toolsMap mcpCallTool marshalContent params = (s, !res.isError)) ∧
    (∀ e, ∃ cs, callToolError e = marshalMcpContents cs) := by
  refine ⟨?_, ?_, ?_, ?_, fun e => ⟨[⟨"text", e⟩], rfl⟩⟩
  · intro h; simp [mainCallTool, h]
  · intro idx e h1 h2; simp [mainCallTool, h1, h2]
  · intro idx res e h1 h2 h3; simp [mainCallTool, h1, h2, h3]
  · intro idx res s h1 h2 h3; simp [mainCallTool, h1, h2, h3]

/-- Witness for C5: an unknown tool name produces the structured error payload
and success = false. -/
theorem mainCallTool_error_payloads_witness :
    mainCallTool (fun _ => none) (fun _ _ => .error "boom") (fun _ => .ok "[]")
        ⟨"lookup", "\x7b\"q\":\"x\"\x7d"⟩ =
      (callToolError ("tool " ++ "lookup" ++ " is not found"), false) :=
  (mainCallTool_error_payloads _ _ _ _).1 rfl

/-- Truncation of every delta's tool-call list to its first entry, OpenAI
chunk form. -/
def firstToolCallOnlyChunk (c : OpenAIChunk) : OpenAIChunk :=
  ⟨c.choices.map (fun d => ⟨d.content, d.toolCalls.take 1⟩)⟩

/-- Truncation of every delta's tool-call list to its first entry, OpenRouter
event form. -/
def firstToolCallOnlyEvent : OREvent → OREvent
  | .done => .done
  | .payload p => .payload ⟨p.errorCode, p.errorMessage,
      p.choices.map (fun d => ⟨d.content, d.toolCalls.take 1⟩)⟩

theorem openAIStream_firstToolCallOnly (chunks : List OpenAIChunk) :
    ∀ tu ta c, openAIStream (chunks.map firstToolCallOnlyChunk) tu ta c =
      openAIStream chunks tu ta c := by
  induction chunks with
  | nil => intro tu ta c; rfl
  | cons chunk rest ih =>
    intro tu ta c
    obtain ⟨choices⟩ := chunk
    cases choices with
    | nil => simpa [openAIStream, firstToolCallOnlyChunk] using ih tu ta c
    | cons d ds =>
      obtain ⟨content, toolCalls⟩ := d
      cases toolCalls with
      | nil => simp [openAIStream, firstToolCallOnlyChunk, ih]
      | cons tc tcs => simp [openAIStream, firstToolCallOnlyChunk, ih]

theorem openRouterStream_firstToolCallOnly (events : List OREvent) :
    ∀ tu ta c, openRouterStream (events.map firstToolCallOnlyEvent) tu ta c =
      openRouterStream events tu ta c := by
  induction events with
  | nil => intro tu ta c; rfl
  | cons ev rest ih =>
    intro tu ta c
    cases ev with
    | done => rfl
    | payload p =>
      obtain ⟨code, msg, choices⟩ := p
      by_cases hcode : code ≠ 0
      · simp [openRouterStream, firstToolCallOnlyEvent, hcode]
      · cases choices with
        | nil => simp [openRouterStream, firstToolCallOnlyEvent, hcode, ih]
        | cons d ds =>
          obtain ⟨content, toolCalls⟩ := d
          cases toolCalls with
          | nil => simp [openRouterStream, firstToolCallOnlyEvent, hcode, ih]
          | cons tc tcs => simp [openRouterStream, firstToolCallOnlyEvent, hcode, ih]

/-- C6: when a streamed delta signals more than one tool call, only the first
entry of each delta's tool-call list matters — truncating every delta to its
first tool-call entry leaves the OpenAI and OpenRouter adapters' output
unchanged (name, identifier and accumulated arguments all come from the first
entry) — and on a concrete delta carrying two simultaneous tool-call
fragments, only the first fragment's name and identifier appear in the emitted
tool-call content. -/
theorem adapters_first_tool_call_only :
    (∀ chunks, openAIChat (chunks.map firstToolCallOnlyChunk) = openAIChat chunks) ∧
    (∀ events, openRouterChat (events.map firstToolCallOnlyEvent) = openRouterChat events) ∧
    openAIChat [⟨[⟨"", [⟨"id1", "tool1", "\x7b\x7d"⟩, ⟨"id2", "tool2", "ignored"⟩]⟩]⟩] =
      ⟨[{ type := ContentType.callTool, toolName := "tool1", callToolID := "id1",
          toolInput := "\x7b\x7d" }], none⟩ ∧
    openRouterChat [OREvent.payload ⟨0, "",
        [⟨"", [⟨"id1", "tool1", "\x7b\x7d"⟩, ⟨"id2", "tool2", "ignored"⟩]⟩]⟩] =
      ⟨[{ type := ContentType.callTool, toolName := "tool1", callToolID := "id1",
          toolInput := "\x7b\x7d" }], none⟩ :=
  ⟨fun chunks => openAIStream_firstToolCallOnly chunks false "" _,
   fun events => openRouterStream_firstToolCallOnly events false "" _,
   by decide, by decide⟩

theorem anthropicStream_calltool_input_ne (events : List AnthropicEvent) :
    ∀ itu ij tc, ∀ c ∈ (anthropicStream events itu ij tc).yields,
      c.type = ContentType.callTool → c.toolInput ≠ "" := by
  induction events with
  | nil => intro itu ij tc c hc; simp [anthropicStream] at hc
  | cons ev rest ih =>
    intro itu ij tc c hc hty
    cases ev with
    | errorEv t m => simp [anthropicStream] at hc
    | messageStop => simp [anthropicStream] at hc
    | blockStart b =>
      rw [anthropicStream] at hc
      split at hc
      · exact ih _ _ _ c hc hty
      · exact ih _ _ _ c hc hty
    | blockDelta t pj =>
      rw [anthropicStream] at hc
      split at hc
      · exact ih _ _ _ c hc hty
      · simp only [consOut, List.mem_append, List.mem_singleton] at hc
        rcases hc with hc | hc
        · subst hc; cases hty
        · exact ih _ _ _ c hc hty
    | blockStop =>
      rw [anthropicStream] at hc
      split at hc
      · exact ih _ _ _ c hc hty
      · simp only [consOut, List.mem_append, List.mem_singleton] at hc
        rcases hc with hc | hc
        · subst hc
          simp only []
          split
          · decide
          · simpa using by assumption
        · exact ih _ _ _ c hc hty
    | otherEvent => exact ih _ _ _ c (by rwa [anthropicStream] at hc) hty

theorem anthropicStream_empty_args (events : List AnthropicEvent) :
    (∀ t pj, AnthropicEvent.blockDelta t pj ∈ events → pj = "") →
    ∀ itu tc, ∀ c ∈ (anthropicStream events itu "" tc).yields,
      c.type = ContentType.callTool → c.toolInput = "\x7b\x7d" := by
  induction events with
  | nil => intro hfr itu tc c hc; simp [anthropicStream] at hc
  | cons ev rest ih =>
    intro hfr itu tc c hc hty
    have hfr2 : ∀ t pj, AnthropicEvent.blockDelta t pj ∈ rest → pj = "" :=
      fun t pj h => hfr t pj (List.mem_cons_of_mem _ h)
    cases ev with
    | errorEv t m => simp [anthropicStream] at hc
    | messageStop => simp [anthropicStream] at hc
    | blockStart b =>
      rw [anthropicStream] at hc
      split at hc
      · exact ih hfr2 _ _ c hc hty
      · exact ih hfr2 _ _ c hc hty
    | blockDelta t pj =>
      have hpj : pj = "" := hfr t pj (List.mem_cons_self _ _)
      rw [anthropicStream] at hc
      split at hc
      · rw [hpj] at hc
        exact ih hfr2 _ _ c hc hty
      · simp only [consOut, List.mem_append, List.mem_singleton] at hc
        rcases hc with hc | hc
        · subst hc; cases hty
        · exact ih hfr2 _ _ c hc hty
    | blockStop =>
      rw [anthropicStream] at hc
      split at hc
      · exact ih hfr2 _ _ c hc hty
      · simp only [if_pos rfl, consOut, List.mem_append, List.mem_singleton] at hc
        rcases hc with hc | hc
        · subst hc; rfl
        · exact ih hfr2 _ _ c hc hty
    | otherEvent => exact ih hfr2 _ _ c (by rwa [anthropicStream] at hc) hty

theorem openAIStream_calltool_input_ne (chunks : List OpenAIChunk) :
    ∀ tu ta c0, c0.type = ContentType.callTool →
      ∀ c ∈ (openAIStream chunks tu ta c0).yields,
        c.type = ContentType.callTool → c.toolInput ≠ "" := by
  induction chunks with
  | nil =>
    intro tu ta c0 h0 c hc hty
    rw [openAIStream] at hc
    split at hc
    · simp only [List.mem_singleton] at hc
      subst hc
      simp only []
      split
      · decide
      · simpa using by assumption
    · simp at hc
  | cons chunk rest ih =>
    intro tu ta c0 h0 c hc hty
    obtain ⟨choices⟩ := chunk
    cases choices with
    | nil =>
      rw [openAIStream] at hc
      exact ih _ _ _ h0 c hc hty
    | cons d ds =>
      obtain ⟨content, tcs⟩ := d
      cases tcs with
      | nil =>
        rw [openAIStream] at hc
        simp only [consOut, List.mem_append] at hc
        rcases hc with hc | hc
        · split at hc
          · simp only [List.mem_singleton] at hc; subst hc; cases hty
          · simp at hc
        · exact ih _ _ _ h0 c hc hty
      | cons tc more =>
        rw [openAIStream] at hc
        dsimp only at hc
        split at hc <;>
        · simp only [consOut, List.mem_append] at hc
          rcases hc with hc | hc
          · split at hc
            · simp only [List.mem_singleton] at hc; subst hc; cases hty
            · simp at hc
          · first
            | exact ih _ _ _ h0 c hc hty
            | exact ih _ _ _ (by simpa using h0) c hc hty

theorem openAIStream_empty_args (chunks : List OpenAIChunk) :
    (∀ chunk ∈ chunks, ∀ d ∈ chunk.choices, ∀ f ∈ d.toolCalls, f.arguments = "") →
    ∀ tu c0, ∀ c ∈ (openAIStream chunks tu "" c0).yields,
      c.type = ContentType.callTool → c.toolInput = "\x7b\x7d" := by
  induction chunks with
  | nil =>
    intro hfr tu c0 c hc hty
    rw [openAIStream] at hc
    split at hc
    · simp only [List.mem_singleton] at hc
      subst hc; rfl
    · simp at hc
  | cons chunk rest ih =>
    intro hfr tu c0 c hc hty
    have hfr2 : ∀ ch ∈ rest, ∀ d ∈ ch.choices, ∀ f ∈ d.toolCalls, f.arguments = "" :=
      fun ch h => hfr ch (List.mem_cons_of_mem _ h)
    obtain ⟨choices⟩ := chunk
    cases choices with
    | nil =>
      rw [openAIStream] at hc
      exact ih hfr2 _ _ c hc hty
    | cons d ds =>
      obtain ⟨content, tcs⟩ := d
      cases tcs with
      | nil =>
        rw [openAIStream] at hc
        simp only [consOut, List.mem_append] at hc
        rcases hc with hc | hc
        · split at hc
          · simp only [List.mem_singleton] at hc; subst hc; cases hty
          · simp at hc
        · exact ih hfr2 _ _ c hc hty
      | cons tc more =>
        have harg : tc.arguments = "" := by
          refine hfr ⟨⟨content, tc :: more⟩ :: ds⟩ (List.mem_cons_self _ _)
            ⟨content, tc :: more⟩ (List.mem_cons_self _ _) tc (List.mem_cons_self _ _)
        rw [openAIStream] at hc
        dsimp only at hc
        rw [harg] at hc
        split at hc <;>
        · simp only [consOut, List.mem_append] at hc
          rcases hc with hc | hc
          · split at hc
            · simp only [List.mem_singleton] at hc; subst hc; cases hty
            · simp at hc
          · exact ih hfr2 _ _ c hc hty

theorem openRouterEnd_calltool_input_ne (tu : Bool) (ta : String) (c0 : Content) :
    ∀ c ∈ (openRouterEnd tu ta c0).yields, c.type = ContentType.callTool → c.toolInput ≠ "" := by
  intro c hc hty
  rw [openRouterEnd] at hc
  split at hc
  · simp only [List.mem_singleton] at hc
    subst hc
    simp only []
    split
    · decide
    · simpa using by assumption
  · simp at hc

theorem openRouterStream_calltool_input_ne (events : List OREvent) :
    ∀ tu ta c0, ∀ c ∈ (openRouterStream events tu ta c0).yields,
      c.type = ContentType.callTool → c.toolInput ≠ "" := by
  induction events with
  | nil =>
    intro tu ta c0 c hc hty
    rw [openRouterStream] at hc
    exact openRouterEnd_calltool_input_ne tu ta c0 c hc hty
  | cons ev rest ih =>
    intro tu ta c0 c hc hty
    cases ev with
    | done =>
      rw [openRouterStream] at hc
      exact openRouterEnd_calltool_input_ne tu ta c0 c hc hty
    | payload p =>
      obtain ⟨code, msg, choices⟩ := p
      rw [openRouterStream] at hc
      split at hc
      · simp at hc
      · cases choices with
        | nil => exact ih _ _ _ c hc hty
        | cons d ds =>
          obtain ⟨content, tcs⟩ := d
          cases tcs with
          | nil =>
            simp only [consOut, List.mem_append] at hc
            rcases hc with hc | hc
            · split at hc
              · simp only [List.mem_singleton] at hc; subst hc; cases hty
              · simp at hc
            · exact ih _ _ _ c hc hty
          | cons tc more =>
            dsimp only at hc
            simp only [consOut, List.mem_append] at hc
            rcases hc with hc | hc
            · split at hc
              · simp only [List.mem_singleton] at hc; subst hc; cases hty
              · simp at hc
            · split at hc
              · exact ih _ _ _ c hc hty
              · exact ih _ _ _ c hc hty

theorem openRouterStream_empty_args (events : List OREvent) :
    (∀ p ∈ events.filterMap (fun ev => match ev with
        | OREvent.payload p => some p
        | OREvent.done => none),
      ∀ d ∈ p.choices, ∀ f ∈ d.toolCalls, f.arguments = "") →
    ∀ tu c0, ∀ c ∈ (openRouterStream events tu "" c0).yields,
      c.type = ContentType.callTool → c.toolInput = "\x7b\x7d" := by
  induction events with
  | nil =>
    intro hfr tu c0 c hc hty
    rw [openRouterStream, openRouterEnd] at hc
    split at hc
    · simp only [List.mem_singleton] at hc
      subst hc; rfl
    · simp at hc
  | cons ev rest ih =>
    intro hfr tu c0 c hc hty
    have hfr2 : ∀ p ∈ rest.filterMap (fun ev => match ev with
        | OREvent.payload p => some p
        | OREvent.done => none),
        ∀ d ∈ p.choices, ∀ f ∈ d.toolCalls, f.arguments = "" := by
      intro p hp
      refine hfr p ?_
      cases ev with
      | done => simpa [List.filterMap_cons] using hp
      | payload q =>
        simp only [List.filterMap_cons, List.mem_cons]
        exact Or.inr hp
    cases ev with
    | done =>
      rw [openRouterStream, openRouterEnd] at hc
      split at hc
      · simp only [List.mem_singleton] at hc
        subst hc; rfl
      · simp at hc
    | payload p =>
      obtain ⟨code, msg, choices⟩ := p
      have hphead : ∀ d ∈ choices, ∀ f ∈ d.toolCalls, f.arguments = "" := by
        intro d hd f hf
        refine hfr ⟨code, msg, choices⟩ ?_ d hd f hf
        simp [List.filterMap]
      rw [openRouterStream] at hc
      split at hc
      · simp at hc
      · cases choices with
        | nil => exact ih hfr2 _ _ c hc hty
        | cons d ds =>
          obtain ⟨content, tcs⟩ := d
          cases tcs with
          | nil =>
            simp only [consOut, List.mem_append] at hc
            rcases hc with hc | hc
            · split at hc
              · simp only [List.mem_singleton] at hc; subst hc; cases hty
              · simp at hc
            · exact ih hfr2 _ _ c hc hty
          | cons tc more =>
            have harg : tc.arguments = "" :=
              hphead ⟨content, tc :: more⟩ (List.mem_cons_self _ _) tc (List.mem_cons_self _ _)
            dsimp only at hc
            rw [harg] at hc
            simp only [consOut, List.mem_append] at hc
            rcases hc with hc | hc
            · split at hc
              · simp only [List.mem_singleton] at hc; subst hc; cases hty
              · simp at hc
            · split at hc
              · exact ih hfr2 _ _ c hc hty
              · exact ih hfr2 _ _ c hc hty

theorem marshalStringObject_ne_empty (m : List (String × String)) :
    marshalStringObject m ≠ "" := by
  intro h
  have hl := congrArg String.length h
  rw [marshalStringObject] at hl
  rw [String.length_append, String.length_append] at hl
  have h1 : ("\x7b" : String).length = 1 := rfl
  have h2 : ("\x7d" : String).length = 1 := rfl
  have h3 : ("" : String).length = 0 := rfl
  omega

theorem ollamaStream_calltool_input_ne (resps : List OllamaChatResponse) :
    ∀ c ∈ ollamaStream resps, c.type = ContentType.callTool → c.toolInput ≠ "" := by
  induction resps with
  | nil => intro c hc; simp [ollamaStream] at hc
  | cons res rest ih =>
    intro c hc hty
    rw [ollamaStream] at hc
    simp only [List.mem_append] at hc
    rcases hc with (hc | hc) | hc
    · split at hc
      · simp only [List.mem_singleton] at hc; subst hc; cases hty
      · simp at hc
    · rcases hres : res.toolCalls with _ | ⟨tc, more⟩
      · rw [hres] at hc; simp at hc
      · rw [hres] at hc
        simp only [List.mem_singleton] at hc
        subst hc
        exact marshalStringObject_ne_empty tc.arguments
    · exact ih c hc hty

theorem ollamaStream_empty_args (resps : List OllamaChatResponse) :
    (∀ r ∈ resps, ∀ t ∈ r.toolCalls, t.arguments = ([] : List (String × String))) →
    ∀ c ∈ ollamaStream resps, c.type = ContentType.callTool → c.toolInput = "\x7b\x7d" := by
  induction resps with
  | nil => intro hfr c hc; simp [ollamaStream] at hc
  | cons res rest ih =>
    intro hfr c hc hty
    have hfr2 : ∀ r ∈ rest, ∀ t ∈ r.toolCalls, t.arguments = ([] : List (String × String)) :=
      fun r h => hfr r (List.mem_cons_of_mem _ h)
    rw [ollamaStream] at hc
    simp only [List.mem_append] at hc
    rcases hc with (hc | hc) | hc
    · split at hc
      · simp only [List.mem_singleton] at hc; subst hc; cases hty
      · simp at hc
    · rcases hres : res.toolCalls with _ | ⟨tc, more⟩
      · rw [hres] at hc; simp at hc
      · rw [hres] at hc
        simp only [List.mem_singleton] at hc
        subst hc
        have harg : tc.arguments = [] := by
          refine hfr res (List.mem_cons_self _ _) tc ?_
          rw [hres]; exact List.mem_cons_self _ _
        simp only [harg]
        rfl
    · exact ih hfr2 c hc hty

/-- C7: no adapter ever emits a tool-call content with an empty argument
payload, and whenever the accumulated argument payload of a streamed turn is
the empty string (no delta carries any argument fragment; for Ollama, the
arguments map is empty), the emitted tool-call content carries exactly the
empty JSON object literal. -/
theorem adapters_normalize_empty_tool_args :
    ((∀ events, ∀ c ∈ (anthropicChat events).yields,
        c.type = ContentType.callTool → c.toolInput ≠ "") ∧
     (∀ events, (∀ t pj, AnthropicEvent.blockDelta t pj ∈ events → pj = "") →
        ∀ c ∈ (anthropicChat events).yields,
          c.type = ContentType.callTool → c.toolInput = "\x7b\x7d")) ∧
    ((∀ chunks, ∀ c ∈ (openAIChat chunks).yields,
        c.type = ContentType.callTool → c.toolInput ≠ "") ∧
     (∀ chunks, (∀ chunk ∈ chunks, ∀ d ∈ chunk.choices, ∀ f ∈ d.toolCalls, f.arguments = "") →
        ∀ c ∈ (openAIChat chunks).yields,
          c.type = ContentType.callTool → c.toolInput = "\x7b\x7d")) ∧
    ((∀ events, ∀ c ∈ (openRouterChat events).yields,
        c.type = ContentType.callTool → c.toolInput ≠ "") ∧
     (∀ events, (∀ p ∈ events.filterMap (fun ev => match ev with
          | OREvent.payload p => some p
          | OREvent.done => none),
        ∀ d ∈ p.choices, ∀ f ∈ d.toolCalls, f.arguments = "") →
        ∀ c ∈ (openRouterChat events).yields,
          c.type = ContentType.callTool → c.toolInput = "\x7b\x7d")) ∧
    ((∀ resps, ∀ c ∈ ollamaStream resps,
        c.type = ContentType.callTool → c.toolInput ≠ "") ∧
     (∀ resps, (∀ r ∈ resps, ∀ t ∈ r.toolCalls, t.arguments = ([] : List (String × String))) →
        ∀ c ∈ ollamaStream resps,
          c.type = ContentType.callTool → c.toolInput = "\x7b\x7d")) :=
  ⟨⟨fun events => anthropicStream_calltool_input_ne events false "" _,
    fun events h => anthropicStream_empty_args events h false _⟩,
   ⟨fun chunks => openAIStream_calltool_input_ne chunks false "" _ rfl,
    fun chunks h => openAIStream_empty_args chunks h false _⟩,
   ⟨fun events => openRouterStream_calltool_input_ne events false "" _,
    fun events h => openRouterStream_empty_args events h false _⟩,
   ⟨ollamaStream_calltool_input_ne, ollamaStream_empty_args⟩⟩

/-- Witness for C7: an Anthropic turn that opens and closes a tool-use block
without any argument fragment emits a tool-call content whose input is the
empty JSON object literal. -/
theorem adapters_normalize_empty_tool_args_witness :
    ({ type := ContentType.callTool, toolName := "t1", callToolID := "c1",
       toolInput := "\x7b\x7d" } : Content).toolInput = "\x7b\x7d" :=
  adapters_normalize_empty_tool_args.1.2
    [AnthropicEvent.blockStart ⟨"tool_use", "c1", "t1"⟩, AnthropicEvent.blockStop]
    (by intro t pj h; simp at h) _ (by decide) rfl

theorem anthropicOtherContents_resource_error :
    ∀ cts msgs contents role, (∃ ct ∈ cts, ct.type = ContentType.resource) →
      anthropicOtherContents cts msgs contents role =
        .error "content type resource is not supported for assistant messages" := by
  intro cts
  induction cts with
  | nil => intro msgs contents role h; simp at h
  | cons ct rest ih =>
    intro msgs contents role h
    obtain ⟨ty, tx, rc, tn, ti, tr, cid, cf⟩ := ct
    rcases h with ⟨w, hw, hwty⟩
    cases ty with
    | resource => rfl
    | text =>
      rcases List.mem_cons.mp hw with hw | hw
      · subst hw; cases hwty
      · exact ih _ _ _ ⟨w, hw, hwty⟩
    | callTool =>
      rcases List.mem_cons.mp hw with hw | hw
      · subst hw; cases hwty
      · exact ih _ _ _ ⟨w, hw, hwty⟩
    | toolResult =>
      rcases List.mem_cons.mp hw with hw | hw
      · subst hw; cases hwty
      · exact ih _ _ _ ⟨w, hw, hwty⟩

theorem anthropicConvertMessages_error (std : GoStd) :
    ∀ messages msg, msg ∈ messages → msg.role = Role.assistant →
      (∃ ct ∈ msg.contents, ct.type = ContentType.resource) →
      ∃ e, anthropicConvertMessages std messages = .error e := by
  intro messages
  induction messages with
  | nil => intro msg hmem; simp at hmem
  | cons m rest ih =>
    intro msg hmem hrole hres
    rcases List.mem_cons.mp hmem with hmem | hmem
    · subst hmem
      rw [anthropicConvertMessages]
      rw [if_neg (by rw [hrole]; intro hk; cases hk)]
      rw [anthropicProcessOtherRoleMessage,
        anthropicOtherContents_resource_error _ _ _ _ hres]
      exact ⟨_, rfl⟩
    · obtain ⟨e, he⟩ := ih msg hmem hrole hres
      rw [anthropicConvertMessages]
      split
      · cases hu : anthropicProcessUserMessage std m with
        | error e2 => exact ⟨e2, rfl⟩
        | ok um => exact ⟨e, by rw [he]; rfl⟩
      · cases ho : anthropicProcessOtherRoleMessage m with
        | error e2 => exact ⟨e2, rfl⟩
        | ok oms => exact ⟨e, by rw [he]; rfl⟩

theorem openAIAssistantContents_resource_error :
    ∀ cts role, (∃ ct ∈ cts, ct.type = ContentType.resource) →
      openAIAssistantContents role cts =
        .error "content type resource is not supported for assistant messages" := by
  intro cts
  induction cts with
  | nil => intro role h; simp at h
  | cons ct rest ih =>
    intro role h
    obtain ⟨ty, tx, rc, tn, ti, tr, cid, cf⟩ := ct
    rcases h with ⟨w, hw, hwty⟩
    cases ty with
    | resource => rfl
    | text =>
      rcases List.mem_cons.mp hw with hw | hw
      · subst hw; cases hwty
      · rw [openAIAssistantContents, ih _ ⟨w, hw, hwty⟩]; rfl
    | callTool =>
      rcases List.mem_cons.mp hw with hw | hw
      · subst hw; cases hwty
      · rw [openAIAssistantContents, ih _ ⟨w, hw, hwty⟩]; rfl
    | toolResult =>
      rcases List.mem_cons.mp hw with hw | hw
      · subst hw; cases hwty
      · rw [openAIAssistantContents, ih _ ⟨w, hw, hwty⟩]; rfl

theorem openAIMessages_error (std : GoStd) :
    ∀ messages msg, msg ∈ messages → msg.role = Role.assistant →
      (∃ ct ∈ msg.contents, ct.type = ContentType.resource) →
      ∃ e, openAIMessages std messages = .error e := by
  intro messages
  induction messages with
  | nil => intro msg hmem; simp at hmem
  | cons m rest ih =>
    intro msg hmem hrole hres
    rcases List.mem_cons.mp hmem with hmem | hmem
    · subst hmem
      rw [openAIMessages]
      rw [if_neg (by rw [hrole]; intro hk; cases hk)]
      rw [openAIAssistantContents_resource_error _ _ hres]
      exact ⟨_, rfl⟩
    · obtain ⟨e, he⟩ := ih msg hmem hrole hres
      rw [openAIMessages]
      split
      · cases hu : processUserMessageForOpenAI std m with
        | error e2 => exact ⟨e2, rfl⟩
        | ok um => exact ⟨e, by rw [he]; rfl⟩
      · cases ho : openAIAssistantContents (roleString m.role) m.contents with
        | error e2 => exact ⟨e2, rfl⟩
        | ok ms1 => exact ⟨e, by rw [he]; rfl⟩

theorem orAssistantContents_resource_error :
    ∀ cts role, (∃ ct ∈ cts, ct.type = ContentType.resource) →
      orAssistantContents role cts =
        .error "content type resource is not supported for assistant messages" := by
  intro cts
  induction cts with
  | nil => intro role h; simp at h
  | cons ct rest ih =>
    intro role h
    obtain ⟨ty, tx, rc, tn, ti, tr, cid, cf⟩ := ct
    rcases h with ⟨w, hw, hwty⟩
    cases ty with
    | resource => rfl
    | text =>
      rcases List.mem_cons.mp hw with hw | hw
      · subst hw; cases hwty
      · rw [orAssistantContents, ih _ ⟨w, hw, hwty⟩]; rfl
    | callTool =>
      rcases List.mem_cons.mp hw with hw | hw
      · subst hw; cases hwty
      · rw [orAssistantContents, ih _ ⟨w, hw, hwty⟩]; rfl
    | toolResult =>
      rcases List.mem_cons.mp hw with hw | hw
      · subst hw; cases hwty
      · rw [orAssistantContents, ih _ ⟨w, hw, hwty⟩]; rfl

theorem orMessages_error (std : GoStd) :
    ∀ messages msg, msg ∈ messages → msg.role = Role.assistant →
      (∃ ct ∈ msg.contents, ct.type = ContentType.resource) →
      ∃ e, orMessages std messages = .error e := by
  intro messages
  induction messages with
  | nil => intro msg hmem; simp at hmem
  | cons m rest ih =>
    intro msg hmem hrole hres
    rcases List.mem_cons.mp hmem with hmem | hmem
    · subst hmem
      rw [orMessages]
      rw [if_neg (by rw [hrole]; intro hk; cases hk)]
      rw [orAssistantContents_resource_error _ _ hres]
      exact ⟨_, rfl⟩
    · obtain ⟨e, he⟩ := ih msg hmem hrole hres
      rw [orMessages]
      split
      · cases hu : processUserMessageForOpenRouter std m with
        | error e2 => exact ⟨e2, rfl⟩
        | ok um => exact ⟨e, by rw [he]; rfl⟩
      · cases ho : orAssistantContents (roleString m.role) m.contents with
        | error e2 => exact ⟨e2, rfl⟩
        | ok ms1 => exact ⟨e, by rw [he]; rfl⟩

theorem ollamaAssistantContents_resource_error (std : GoStd) :
    ∀ cts role, (∃ ct ∈ cts, ct.type = ContentType.resource) →
      ∃ e, ollamaAssistantContents std role cts = .error e := by
  intro cts
  induction cts with
  | nil => intro role h; simp at h
  | cons ct rest ih =>
    intro role h
    obtain ⟨ty, tx, rc, tn, ti, tr, cid, cf⟩ := ct
    rcases h with ⟨w, hw, hwty⟩
    cases ty with
    | resource => exact ⟨_, rfl⟩
    | text =>
      rcases List.mem_cons.mp hw with hw | hw
      · subst hw; cases hwty
      · obtain ⟨e, he⟩ := ih _ ⟨w, hw, hwty⟩
        exact ⟨e, by rw [ollamaAssistantContents, he]; rfl⟩
    | callTool =>
      rcases List.mem_cons.mp hw with hw | hw
      · subst hw; cases hwty
      · obtain ⟨e, he⟩ := ih _ ⟨w, hw, hwty⟩
        rw [ollamaAssistantContents]
        cases hm : std.unmarshalStringMap ti with
        | error e2 => exact ⟨_, rfl⟩
        | ok args => exact ⟨e, by rw [he]; rfl⟩
    | toolResult =>
      rcases List.mem_cons.mp hw with hw | hw
      · subst hw; cases hwty
      · obtain ⟨e, he⟩ := ih _ ⟨w, hw, hwty⟩
        exact ⟨e, by rw [ollamaAssistantContents, he]; rfl⟩

theorem ollamaMessages_error (std : GoStd) :
    ∀ messages msg, msg ∈ messages → msg.role = Role.assistant →
      (∃ ct ∈ msg.contents, ct.type = ContentType.resource) →
      ∃ e, ollamaMessages std messages = .error e := by
  intro messages
  induction messages with
  | nil => intro msg hmem; simp at hmem
  | cons m rest ih =>
    intro msg hmem hrole hres
    rcases List.mem_cons.mp hmem with hmem | hmem
    · subst hmem
      obtain ⟨e, he⟩ := ollamaAssistantContents_resource_error std msg.contents
        (roleString msg.role) hres
      rw [ollamaMessages]
      rw [if_neg (by rw [hrole]; intro hk; cases hk)]
      rw [he]
      exact ⟨e, rfl⟩
    · obtain ⟨e, he⟩ := ih msg hmem hrole hres
      rw [ollamaMessages]
      split
      · cases hu : ollamaUserContents std m.contents "" [] with
        | error e2 => exact ⟨e2, rfl⟩
        | ok ti => exact ⟨e, by rw [he]; rfl⟩
      · cases ho : ollamaAssistantContents std (roleString m.role) m.contents with
        | error e2 => exact ⟨e2, rfl⟩
        | ok ms1 => exact ⟨e, by rw [he]; rfl⟩

/-- C8: a transcript containing an assistant-authored message with resource
(attached-resource) content fails fast in every adapter's outgoing-message
serialization: the message conversion returns a content-type error, so no
request is built or sent.  For the Anthropic, OpenAI and OpenRouter adapters
the per-message conversion rejects it with exactly the error
"content type resource is not supported for assistant messages". -/
theorem adapters_reject_assistant_resource (std : GoStd) (messages : List Message)
    (msg : Message) (hmem : msg ∈ messages) (hrole : msg.role = Role.assistant)
    (hres : ∃ ct ∈ msg.contents, ct.type = ContentType.resource) :
    (∃ e, anthropicConvertMessages std messages = .error e) ∧
    (∃ e, openAIMessages std messages = .error e) ∧
    (∃ e, orMessages std messages = .error e) ∧
    (∃ e, ollamaMessages std messages = .error e) ∧
    anthropicProcessOtherRoleMessage msg =
      .error "content type resource is not supported for assistant messages" ∧
    openAIAssistantContents (roleString msg.role) msg.contents =
      .error "content type resource is not supported for assistant messages" ∧
    orAssistantContents (roleString msg.role) msg.contents =
      .error "content type resource is not supported for assistant messages" :=
  ⟨anthropicConvertMessages_error std messages msg hmem hrole hres,
   openAIMessages_error std messages msg hmem hrole hres,
   orMessages_error std messages msg hmem hrole hres,
   ollamaMessages_error std messages msg hmem hrole hres,
   anthropicOtherContents_resource_error _ _ _ _ hres,
   openAIAssistantContents_resource_error _ _ hres,
   orAssistantContents_resource_error _ _ hres⟩

/-- Witness for C8 on a one-message transcript whose assistant message holds a
resource content. -/
theorem adapters_reject_assistant_resource_witness :
    anthropicProcessOtherRoleMessage
        { role := Role.assistant,
          contents := [{ type := ContentType.resource, resourceContents := [{ uri := "u" }] }] } =
      .error "content type resource is not supported for assistant messages" :=
  (adapters_reject_assistant_resource gostdId
    [{ role := Role.assistant,
       contents := [{ type := ContentType.resource, resourceContents := [{ uri := "u" }] }] }]
    { role := Role.assistant,
      contents := [{ type := ContentType.resource, resourceContents := [{ uri := "u" }] }] }
    (List.mem_cons_self _ _) rfl
    ⟨{ type := ContentType.resource, resourceContents := [{ uri := "u" }] },
      List.mem_cons_self _ _, rfl⟩).2.2.2.2.1

/-- In-order concatenation of a list of text deltas. -/
def textConcat : List String → String
  | [] => ""
  | s :: rest => s ++ textConcat rest

/-- A text delta stream item carrying exactly the adapter's text content. -/
def textDelta (s : String) : StreamItem :=
  StreamItem.delta { type := ContentType.text, text := s }

theorem runItems_allText (valid : String → Bool) :
    ∀ (ds : List String) (base : List Content) (t : Content) P G ct bf bi,
      ∃ P2, runItems valid (ds.map textDelta) ⟨base ++ [t], P, G⟩ base.length ct bf bi =
        ⟨⟨base ++ [{ t with text := t.text ++ textConcat ds }], P2, G⟩,
         base.length, ct, bf, bi, false⟩ := by
  intro ds
  induction ds with
  | nil =>
    intro base t P G ct bf bi
    refine ⟨P, ?_⟩
    simp [runItems, textConcat, String.append_empty]
  | cons s rest ih =>
    intro base t P G ct bf bi
    obtain ⟨P2, hp⟩ := ih base { t with text := t.text ++ s }
      (P ++ [base ++ [{ t with text := t.text ++ s }]]) G ct bf bi
    refine ⟨P2, ?_⟩
    rw [List.map_cons]
    simp only [textDelta, runItems]
    rw [listModify_concat]
    rw [hp]
    simp [textConcat, String.append_assoc]

/-- C9: a streaming pass in which the adapter yields only text deltas (no tool
call, no error) leaves the assistant message extended by exactly one text
content equal to the in-order concatenation of all yielded deltas. -/
theorem chat_text_concatenation (valid : String → Bool)
    (gw : CallToolParams → String × Bool) (st : ChatState) (ds : List String) :
    (chatLoop valid gw [ds.map textDelta] st).contents =
      st.contents ++ [{ type := ContentType.text, text := textConcat ds }] := by
  obtain ⟨cs, P, G⟩ := st
  obtain ⟨P2, hrun⟩ :=
    runItems_allText valid ds cs { type := ContentType.text } P G false false "\x7b\x7d"
  rw [chatLoop]
  simp only []
  rw [hrun]
  rfl

theorem runItems_textPre (valid : String → Bool) :
    ∀ (pre : List StreamItem) (t : Content) P G (items : List StreamItem) bi,
      (∀ s ∈ pre, ∃ tc, s = StreamItem.delta tc ∧ tc.type = ContentType.text) →
      t.type = ContentType.text →
      ∃ t2 P2, t2.type = ContentType.text ∧
        runItems valid (pre ++ items) ⟨[t], P, G⟩ 0 false false bi =
          runItems valid items ⟨[t2], P2, G⟩ 0 false false bi := by
  intro pre
  induction pre with
  | nil => intro t P G items bi hpre ht; exact ⟨t, P, ht, rfl⟩
  | cons s pre ih =>
    intro t P G items bi hpre ht
    obtain ⟨tc, hs, htc⟩ := hpre s (List.mem_cons_self _ _)
    subst hs
    obtain ⟨ty, tx, rc, tn, ti, tr, cid, cf⟩ := tc
    cases htc
    rw [List.cons_append]
    simp only [runItems, listModify]
    exact ih _ _ _ items bi (fun x hx => hpre x (List.mem_cons_of_mem _ hx)) ht

/-- C2: a tool-call delta whose argument payload fails JSON validation is
persisted with its arguments replaced by the empty JSON object literal, the
loop appends a failed tool-result explaining that the arguments were not valid
JSON, and the Tool Invocation Gateway is never invoked during the run. -/
theorem chat_invalid_tool_input (valid : String → Bool)
    (gw : CallToolParams → String × Bool) (pre : List StreamItem) (c : Content)
    (rest : List StreamItem)
    (hpre : ∀ s ∈ pre, ∃ tc, s = StreamItem.delta tc ∧ tc.type = ContentType.text)
    (hct : c.type = ContentType.callTool) (hbad : valid c.toolInput = false) :
    (mainChat valid gw [pre ++ StreamItem.delta c :: rest]).gwCalls = [] ∧
    ∃ t, t.type = ContentType.text ∧
      (mainChat valid gw [pre ++ StreamItem.delta c :: rest]).contents =
        [t, { c with toolInput := "\x7b\x7d" },
         { type := ContentType.toolResult,
           toolResult := callToolError ("tool input " ++ c.toolInput ++ " is not valid json"),
           callToolID := c.callToolID, callToolFailed := true }] ∧
      (mainChat valid gw [pre ++ StreamItem.delta c :: rest]).persisted.getLast? =
        some [t, { c with toolInput := "\x7b\x7d" }] := by
  obtain ⟨ty, tx, rc, tn, ti, tr, cid, cf⟩ := c
  cases hct
  obtain ⟨t2, P2, ht2, hrw⟩ := runItems_textPre valid pre { type := ContentType.text } [] []
    (StreamItem.delta ⟨ContentType.callTool, tx, rc, tn, ti, tr, cid, cf⟩ :: rest) "\x7b\x7d"
    hpre rfl
  unfold mainChat
  rw [chatLoop]
  simp only [List.nil_append, List.length_nil]
  rw [hrw]
  simp only [runItems, hbad, Bool.not_false, Bool.or_true, if_true]
  refine ⟨rfl, t2, ht2, rfl, ?_⟩
  exact List.getLast?_concat P2

/-- Concrete tool-call content with a non-JSON argument payload, for the C2
witness. -/
def badCallContent : Content :=
  { type := ContentType.callTool, toolName := "lookup", toolInput := "not-json", callToolID := "id1" }

/-- The same call with its arguments replaced by the empty JSON object. -/
def fixedCallContent : Content :=
  { type := ContentType.callTool, toolName := "lookup", toolInput := "\x7b\x7d", callToolID := "id1" }

/-- A validator modelling json.Marshal failing exactly on "not-json". -/
def validNotJson : String → Bool := fun s => s != "not-json"

/-- A gateway oracle for the C2 witness. -/
def gwOk : CallToolParams → String × Bool := fun _ => ("[]", true)

/-- The failed tool-result the loop synthesizes for the C2 witness. -/
def badInputResult : Content :=
  { type := ContentType.toolResult,
    toolResult := callToolError ("tool input " ++ "not-json" ++ " is not valid json"),
    callToolID := "id1", callToolFailed := true }

/-- Witness for C2: a single pass whose only delta is a tool call with the
payload "not-json" persists the call with empty-object arguments, appends the
failed tool-result and never calls the gateway. -/
theorem chat_invalid_tool_input_witness :
    (mainChat validNotJson gwOk [[StreamItem.delta badCallContent]]).gwCalls = [] ∧
    ∃ t, t.type = ContentType.text ∧
      (mainChat validNotJson gwOk [[StreamItem.delta badCallContent]]).contents =
        [t, fixedCallContent, badInputResult] ∧
      (mainChat validNotJson gwOk [[StreamItem.delta badCallContent]]).persisted.getLast? =
        some [t, fixedCallContent] :=
  chat_invalid_tool_input validNotJson gwOk [] badCallContent []
    (by intro s hs; simp at hs) rfl (by decide)

theorem listModify_mem (f : α → α) :
    ∀ (l : List α) (i : Nat), ∀ x ∈ listModify l i f, x ∈ l ∨ ∃ a ∈ l, x = f a := by
  intro l
  induction l with
  | nil => intro i x hx; simp [listModify] at hx
  | cons a rest ih =>
    intro i x hx
    cases i with
    | zero =>
      rw [listModify] at hx
      rcases List.mem_cons.mp hx with hx | hx
      · exact Or.inr ⟨a, List.mem_cons_self _ _, hx⟩
      · exact Or.inl (List.mem_cons_of_mem _ hx)
    | succ n =>
      rw [listModify] at hx
      rcases List.mem_cons.mp hx with hx | hx
      · exact Or.inl (by rw [hx]; exact List.mem_cons_self _ _)
      · rcases ih n x hx with hx | ⟨b, hb, hxb⟩
        · exact Or.inl (List.mem_cons_of_mem _ hx)
        · exact Or.inr ⟨b, List.mem_cons_of_mem _ hb, hxb⟩

theorem getLastD_prop {P : α → Prop} :
    ∀ (l : List α) (d : α), (∀ x ∈ l, P x) → P d → P (l.getLastD d) := by
  intro l d hl hd
  cases l with
  | nil => exact hd
  | cons x xs =>
    refine hl _ ?_
    rw [List.getLastD_cons]
    exact List.getLastD_mem_cons xs x

theorem runItems_empty_ids (valid : String → Bool) :
    ∀ (items : List StreamItem) st idx ct bf bi,
      (∀ x ∈ st.contents, x.callToolID = "") →
      (∀ tc, StreamItem.delta tc ∈ items → tc.callToolID = "") →
      ∀ x ∈ (runItems valid items st idx ct bf bi).st.contents, x.callToolID = "" := by
  intro items
  induction items with
  | nil => intro st idx ct bf bi hst hit x hx; exact hst x hx
  | cons s rest ih =>
    intro st idx ct bf bi hst hit x hx
    have hit2 : ∀ tc, StreamItem.delta tc ∈ rest → tc.callToolID = "" :=
      fun tc h => hit tc (List.mem_cons_of_mem _ h)
    cases s with
    | fail e => exact hst x hx
    | delta c =>
      have hcid : c.callToolID = "" := hit c (List.mem_cons_self _ _)
      obtain ⟨ty, tx, rc, tn, ti, tr, cid, cf⟩ := c
      cases ty with
      | text =>
        rw [runItems] at hx
        refine ih _ _ _ _ _ ?_ hit2 x hx
        intro y hy
        rcases listModify_mem _ st.contents idx y hy with hy | ⟨a, ha, hya⟩
        · exact hst y hy
        · rw [hya]; exact hst a ha
      | callTool =>
        rw [runItems] at hx
        simp only [List.mem_append, List.mem_singleton] at hx
        rcases hx with hx | hx
        · exact hst x hx
        · subst hx
          split <;> exact hcid
      | resource => exact hst x hx
      | toolResult => exact hst x hx

theorem chatLoop_empty_ids (valid : String → Bool) (gw : CallToolParams → String × Bool) :
    ∀ (passes : List (List StreamItem)) st,
      (∀ x ∈ st.contents, x.callToolID = "") →
      (∀ pass ∈ passes, ∀ tc, StreamItem.delta tc ∈ pass → tc.callToolID = "") →
      ∀ x ∈ (chatLoop valid gw passes st).contents, x.callToolID = "" := by
  intro passes
  induction passes with
  | nil => intro st hst hp x hx; exact hst x hx
  | cons items rest ih =>
    intro st hst hp x hx
    have hp2 : ∀ pass ∈ rest, ∀ tc, StreamItem.delta tc ∈ pass → tc.callToolID = "" :=
      fun pass h => hp pass (List.mem_cons_of_mem _ h)
    have hstart : ∀ y ∈ st.contents ++ [{ type := ContentType.text }], y.callToolID = "" := by
      intro y hy
      rcases List.mem_append.mp hy with hy | hy
      · exact hst y hy
      · rw [List.mem_singleton.mp hy]
    have hrun := runItems_empty_ids valid items
      { st with contents := st.contents ++ [{ type := ContentType.text }] }
      st.contents.length false false "\x7b\x7d" hstart (hp items (List.mem_cons_self _ _))
    rw [chatLoop] at hx
    simp only [] at hx
    split at hx
    · exact hrun x hx
    · split at hx
      · exact hrun x hx
      · have hlast : ((runItems valid items
            { st with contents := st.contents ++ [{ type := ContentType.text }] }
            st.contents.length false false "\x7b\x7d").st.contents.getLastD
              { type := ContentType.text }).callToolID = "" :=
          getLastD_prop _ _ hrun rfl
        split at hx <;>
        · refine ih _ ?_ hp2 x hx
          intro y hy
          rcases List.mem_append.mp hy with hy | hy
          · exact hrun y hy
          · rw [List.mem_singleton.mp hy]
            exact hlast

/-- C10: the Ollama adapter never populates the tool-call identifier — every
tool-call content it yields has an empty CallToolID — and consequently, for
any run of the orchestration loop whose stream deltas all carry an empty
CallToolID, every content of the assistant message (tool-calls and the
tool-results the loop appends for them alike) carries the empty identifier, so
call and result identifiers still match. -/
theorem ollama_empty_call_ids :
    (∀ resps, ∀ c ∈ ollamaStream resps, c.type = ContentType.callTool → c.callToolID = "") ∧
    (∀ (valid : String → Bool) (gw : CallToolParams → String × Bool) passes,
      (∀ pass ∈ passes, ∀ tc, StreamItem.delta tc ∈ pass → tc.callToolID = "") →
      ∀ x ∈ (mainChat valid gw passes).contents, x.callToolID = "") := by
  constructor
  · intro resps
    induction resps with
    | nil => intro c hc; simp [ollamaStream] at hc
    | cons res rest ih =>
      intro c hc hty
      rw [ollamaStream] at hc
      simp only [List.mem_append] at hc
      rcases hc with (hc | hc) | hc
      · split at hc
        · rw [List.mem_singleton.mp hc]
        · simp at hc
      · rcases hres : res.toolCalls with _ | ⟨tc, more⟩
        · rw [hres] at hc; simp at hc
        · rw [hres] at hc
          rw [List.mem_singleton.mp hc]
      · exact ih c hc hty
  · intro valid gw passes hp x hx
    exact chatLoop_empty_ids valid gw passes ⟨[], [], []⟩ (by simp) hp x hx

/-- Concrete Ollama-style tool-call content (no CallToolID), for the C10
witness. -/
def ollamaCallContent : Content :=
  { type := ContentType.callTool, toolName := "shell", toolInput := "\x7b\x7d" }

/-- Witness for C10: in a run driven by an id-less tool-call delta, the last
appended content (the tool-result) carries the empty CallToolID. -/
theorem ollama_empty_call_ids_witness :
    ((mainChat (fun _ => true) gwOk [[StreamItem.delta ollamaCallContent]]).contents.getLastD
      { type := ContentType.text }).callToolID = "" :=
  ollama_empty_call_ids.2 (fun _ => true) gwOk [[StreamItem.delta ollamaCallContent]]
    (by
      intro pass hp tc htc
      rw [List.mem_singleton.mp hp] at htc
      rw [List.mem_singleton] at htc
      injection htc with h
      rw [h]
      rfl)
    _ (by decide)

/-- A content item `c` is resolved by the item `n` that immediately follows
it: if `c` is a tool-call then `n` must be a tool-result carrying the same
call identifier. -/
def resolvesNext (c n : Content) : Prop :=
  c.type = ContentType.callTool →
    n.type = ContentType.toolResult ∧ n.callToolID = c.callToolID

instance : DecidableRel resolvesNext := fun c n => by
  unfold resolvesNext; infer_instance

/-- Every tool-call except possibly the final content item is immediately
followed by its matching tool-result. -/
def toolCallsResolved (l : List Content) : Prop := List.Chain' resolvesNext l

/-- A fully resolved content list: adjacent pairs resolved and no trailing
tool-call. -/
def noOpenCall (l : List Content) : Prop :=
  toolCallsResolved l ∧ ∀ c ∈ l.getLast?, c.type ≠ ContentType.callTool

theorem noOpenCall_nil : noOpenCall [] := ⟨List.chain'_nil, by simp⟩

theorem toolCallsResolved_concat {l : List Content} (h : noOpenCall l) (c : Content) :
    toolCallsResolved (l ++ [c]) := by
  rcases h with ⟨hc, hl⟩
  rw [toolCallsResolved, List.chain'_append]
  refine ⟨hc, List.chain'_singleton c, ?_⟩
  intro x hx y hy habs
  exact absurd habs (hl x hx)

theorem noOpenCall_concat {l : List Content} (h : noOpenCall l) {c : Content}
    (hc : c.type ≠ ContentType.callTool) : noOpenCall (l ++ [c]) := by
  refine ⟨toolCallsResolved_concat h c, ?_⟩
  intro x hx
  rw [List.getLast?_concat] at hx
  cases hx
  exact hc

theorem noOpenCall_pair {l : List Content} (h : noOpenCall l) {tc tr : Content}
    (htr : tr.type = ContentType.toolResult) (hid : tr.callToolID = tc.callToolID) :
    noOpenCall (l ++ [tc, tr]) := by
  have h2 : l ++ [tc, tr] = (l ++ [tc]) ++ [tr] := by simp
  constructor
  · rw [toolCallsResolved, List.chain'_append]
    refine ⟨h.1, ?_, ?_⟩
    · exact List.chain'_pair.mpr (fun _ => ⟨htr, hid⟩)
    · intro x hx y hy habs
      exact absurd habs (h.2 x hx)
  · intro x hx
    rw [h2, List.getLast?_concat] at hx
    cases hx
    rw [htr]
    intro hk
    cases hk

theorem runItems_inv (valid : String → Bool) :
    ∀ (items : List StreamItem) (base : List Content) (active : Content) P G bf bi,
      active.type = ContentType.text → noOpenCall base →
      (∀ p ∈ P, toolCallsResolved p) →
      (∀ p ∈ (runItems valid items ⟨base ++ [active], P, G⟩ base.length false bf bi).st.persisted,
        toolCallsResolved p) ∧
      ((runItems valid items ⟨base ++ [active], P, G⟩ base.length false bf bi).callTool = true →
        ∃ base2 tc,
          (runItems valid items ⟨base ++ [active], P, G⟩ base.length false bf bi).st.contents =
              base2 ++ [tc] ∧
            noOpenCall base2 ∧ tc.type = ContentType.callTool) := by
  intro items
  induction items with
  | nil =>
    intro base active P G bf bi hactive hbase hP
    exact ⟨hP, fun h => by cases h⟩
  | cons s rest ih =>
    intro base active P G bf bi hactive hbase hP
    cases s with
    | fail e =>
      rw [runItems]
      exact ⟨hP, fun h => by cases h⟩
    | delta c =>
      obtain ⟨ty, tx, rc, tn, ti, tr, cid, cf⟩ := c
      cases ty with
      | text =>
        rw [runItems]
        simp only [listModify_concat]
        refine ih base _ _ G bf bi hactive hbase ?_
        intro p hp
        rcases List.mem_append.mp hp with hp | hp
        · exact hP p hp
        · rw [List.mem_singleton.mp hp]
          exact toolCallsResolved_concat hbase _
      | callTool =>
        have hne : active.type ≠ ContentType.callTool := by
          rw [hactive]; intro hk; cases hk
        rw [runItems]
        constructor
        · intro p hp
          rcases List.mem_append.mp hp with hp | hp
          · exact hP p hp
          · rw [List.mem_singleton.mp hp]
            exact toolCallsResolved_concat (noOpenCall_concat hbase hne) _
        · intro hct
          refine ⟨base ++ [active], _, rfl, noOpenCall_concat hbase hne, ?_⟩
          split <;> rfl
      | resource =>
        rw [runItems]
        exact ⟨hP, fun h => by cases h⟩
      | toolResult =>
        rw [runItems]
        exact ⟨hP, fun h => by cases h⟩

theorem chatLoop_inv (valid : String → Bool) (gw : CallToolParams → String × Bool) :
    ∀ (passes : List (List StreamItem)) (st : ChatState),
      noOpenCall st.contents → (∀ p ∈ st.persisted, toolCallsResolved p) →
      ∀ p ∈ (chatLoop valid gw passes st).persisted, toolCallsResolved p := by
  intro passes
  induction passes with
  | nil => intro st h1 h2 p hp; exact h2 p hp
  | cons items rest ih =>
    intro st h1 h2 p hp
    obtain ⟨cs, P, G⟩ := st
    have hrun := runItems_inv valid items cs { type := ContentType.text } P G false "\x7b\x7d"
      rfl h1 h2
    rw [chatLoop] at hp
    simp only [] at hp
    split at hp
    · exact hrun.1 p hp
    · split at hp
      · exact hrun.1 p hp
      · rename_i hnab hct
        have hct2 : (runItems valid items ⟨cs ++ [{ type := ContentType.text }], P, G⟩
            cs.length false false "\x7b\x7d").callTool = true := by
          revert hct
          cases (runItems valid items ⟨cs ++ [{ type := ContentType.text }], P, G⟩
            cs.length false false "\x7b\x7d").callTool <;> simp
        obtain ⟨base2, tc, hcont, hb2, hty⟩ := hrun.2 hct2
        split at hp <;>
        · refine ih _ ?_ ?_ p hp
          · dsimp only
            rw [hcont, List.append_assoc]
            simp only [List.cons_append, List.nil_append]
            exact noOpenCall_pair hb2 rfl (by rw [getLastD_concat_eq])
          · exact hrun.1

/-- C1: in every snapshot the orchestration loop persists — so after a turn
completes or is interrupted at any point — every tool-call content item except
possibly the last content item is immediately followed by a tool-result whose
CallToolID equals the tool-call's; hence the persisted assistant message never
contains two consecutive unresolved tool-calls, and at most one unresolved
tool-call exists, at the tail. -/
theorem chat_persisted_tool_calls_resolved (valid : String → Bool)
    (gw : CallToolParams → String × Bool) (passes : List (List StreamItem))
    (p : List Content) (hp : p ∈ (mainChat valid gw passes).persisted)
    (i : Nat) (h1 : i < p.length) (h2 : i + 1 < p.length)
    (hct : (p.get ⟨i, h1⟩).type = ContentType.callTool) :
    (p.get ⟨i + 1, h2⟩).type = ContentType.toolResult ∧
    (p.get ⟨i + 1, h2⟩).callToolID = (p.get ⟨i, h1⟩).callToolID := by
  have hres : toolCallsResolved p :=
    chatLoop_inv valid gw passes ⟨[], [], []⟩ noOpenCall_nil (by simp) p hp
  have hstep := List.chain'_iff_get.mp hres i (by omega)
  exact hstep hct

/-- Witness for C1: in a concrete run with one resolved tool call, the final
persisted snapshot has the tool-result right after the tool-call with the same
identifier. -/
theorem chat_persisted_tool_calls_resolved_witness :
    (((mainChat (fun _ => true) gwOk
        [[StreamItem.delta fixedCallContent], [textDelta "hi"]]).persisted.getLastD []).get
          ⟨2, by decide⟩).type = ContentType.toolResult ∧
    (((mainChat (fun _ => true) gwOk
        [[StreamItem.delta fixedCallContent], [textDelta "hi"]]).persisted.getLastD []).get
          ⟨2, by decide⟩).callToolID =
      (((mainChat (fun _ => true) gwOk
        [[StreamItem.delta fixedCallContent], [textDelta "hi"]]).persisted.getLastD []).get
          ⟨1, by decide⟩).callToolID :=
  chat_persisted_tool_calls_resolved (fun _ => true) gwOk
    [[StreamItem.delta fixedCallContent], [textDelta "hi"]]
    ((mainChat (fun _ => true) gwOk
      [[StreamItem.delta fixedCallContent], [textDelta "hi"]]).persisted.getLastD [])
    (by decide) 1 (by decide) (by decide) (by decide)

end MCPWebUI
